import Mathlib

/-!
# Maemo device-configuration settings page

A shallow embedding of `maemosettingspage.cpp` and `maemosshthread.cpp`
(Qt Creator, qt-maemo plugin): the device test output parser
`MaemoSettingsWidget::parseTestOutput`, and the slots of the settings widget
that drive one `MaemoSshRunner` (`testConfig`, `enableTestStop`,
`processSshOutput`, `handleSshFinished`, `stopConfigTest`), the two validators
(`NameValidator`, `PortAndTimeoutValidator`) and the slots that edit the list
of configurations (`addConfig`, `deleteConfig`, `configNameEditingFinished`).

Strings are lists of characters.  The regular expressions of the source are
kept as pattern strings and compiled by `compile` into a list of items that
`matchHere` runs with greedy quantifiers; `indexIn` looks for the leftmost
position at which the pattern matches, as `QRegExp::indexIn` does.
-/

namespace MaemoSettings

/-- A `QString`, as the list of its characters. -/
abbrev QString := List Char

/-- The character classes behind `\s`, `\S` and `\d` (in Qt, `QChar::isSpace`
and `QChar::isDigit`, which read the Unicode tables).  The tables are not
part of the sources, so every definition takes them as a parameter. -/
structure CharClasses where
  isSpace : Char → Bool
  isDigit : Char → Bool

/-- The ASCII character classes: tab, line feed, vertical tab, form feed,
carriage return and blank are spaces, `0` to `9` are digits. -/
def asciiClasses : CharClasses where
  isSpace := fun c => (9 ≤ c.toNat && c.toNat ≤ 13) || c.toNat == 32
  isDigit := fun c => 48 ≤ c.toNat && c.toNat ≤ 57

/-- What one position of a pattern accepts. -/
inductive Atom where
  | lit (c : Char)
  | nonSpace
  | space
  | digit
  deriving DecidableEq, Repr

/-- Does the atom accept the character? -/
def Atom.accepts (cc : CharClasses) : Atom → Char → Bool
  | .lit c, x => x == c
  | .nonSpace, x => !cc.isSpace x
  | .space, x => cc.isSpace x
  | .digit, x => cc.isDigit x

/-- One atom of a pattern, possibly under `+`, with the number of the
capturing group it stands in (`0` when it stands in none). -/
structure Item where
  atom : Atom
  plus : Bool
  group : Nat
  deriving DecidableEq, Repr

/-- The atom of an escape sequence `\c`. -/
def escapeAtom : Char → Atom
  | 'S' => .nonSpace
  | 's' => .space
  | 'd' => .digit
  | c => .lit c

/-- Compiles a pattern string: literal characters, the escapes `\S`, `\s`,
`\d` and escaped literals such as `\.`, the quantifier `+` after an atom, and
capturing groups that are not nested.  `n` counts the groups opened so far and
`g` is the group being read. -/
def compile : QString → Nat → Nat → List Item
  | [], _, _ => []
  | '(' :: t, n, _ => compile t (n + 1) (n + 1)
  | ')' :: t, n, _ => compile t n 0
  | '\\' :: c :: '+' :: t, n, g => ⟨escapeAtom c, true, g⟩ :: compile t n g
  | '\\' :: c :: t, n, g => ⟨escapeAtom c, false, g⟩ :: compile t n g
  | c :: '+' :: t, n, g => ⟨.lit c, true, g⟩ :: compile t n g
  | c :: t, n, g => ⟨.lit c, false, g⟩ :: compile t n g

/-- The pattern `QRegExp(QLatin1String("Linux (\\S+)\\s(\\S+)"))`. -/
def unamePattern : List Item := compile "Linux (\\S+)\\s(\\S+)".toList 0 0

/-- The pattern `QRegExp(QLatin1String("libqt\\S+ \\d\\.\\d\\.\\d"))`. -/
def dkpgPattern : List Item := compile "libqt\\S+ \\d\\.\\d\\.\\d".toList 0 0

/-- Matches `a+` followed by the rest of the pattern `k`, greedily: it first
tries to let `a+` take one more character and falls back to stopping here.
Returns the text taken by `a+` and the texts of the rest. -/
def matchPlus (cc : CharClasses) (a : Atom) (k : QString → Option (List QString)) :
    QString → Option (QString × List QString)
  | [] => none
  | c :: t =>
    if a.accepts cc c then
      match matchPlus cc a k t with
      | some (m, caps) => some (c :: m, caps)
      | none => (k t).map (fun caps => ([c], caps))
    else none

/-- Matches the pattern at the start of the string; returns the text each
item has taken. -/
def matchHere (cc : CharClasses) : List Item → QString → Option (List QString)
  | [], _ => some []
  | it :: rest, s =>
    if it.plus then
      (matchPlus cc it.atom (matchHere cc rest) s).map (fun r => r.1 :: r.2)
    else
      match s with
      | [] => none
      | c :: t =>
        if it.atom.accepts cc c then (matchHere cc rest t).map (fun caps => [c] :: caps)
        else none

/-- The text of group `n` of a match, `QRegExp::cap(n)`; group 0 is the whole
match. -/
def cap (items : List Item) (texts : List QString) (n : Nat) : QString :=
  if n = 0 then texts.flatten
  else (((items.zip texts).filter (fun p => p.1.group == n)).map (fun p => p.2)).flatten

/-- Scans the string `s`, which starts at position `i` of the subject, for the
first position at which the pattern matches. -/
def indexInAux (cc : CharClasses) (items : List Item) : QString → Nat → Option (Nat × List QString)
  | [], i => (matchHere cc items []).map (fun m => (i, m))
  | c :: t, i =>
    match matchHere cc items (c :: t) with
    | some m => some (i, m)
    | none => indexInAux cc items t (i + 1)

/-- Models `QRegExp::indexIn(str, offset)`: the least position from `offset` on at
which the pattern matches, with the texts of the match; `none` stands for the
result `-1`. -/
def indexIn (cc : CharClasses) (items : List Item) (str : QString) (offset : Nat) :
    Option (Nat × List QString) :=
  if offset ≤ str.length then indexInAux cc items (str.drop offset) offset else none

/-- Models `tr(...)`: the source text itself (no translation is installed). -/
def tr (s : String) : QString := s.toList

/-- Models `QString::arg(a)` on a template whose only place marker is `%1`: every
`%1` is replaced by `a`. -/
def arg : QString → QString → QString
  | '%' :: '1' :: t, a => a ++ arg t a
  | c :: t, a => c :: arg t a
  | [], _ => []

/-- The `do ... while (index != -1)` loop of `parseTestOutput`: appends the
current descriptor, then searches again from `index + 1`.  `fuel` bounds the
number of iterations. -/
def pkgLoop (cc : CharClasses) (m_deviceTestOutput : QString) :
    Nat → Nat → QString → QString → Option QString
  | 0, _, _, _ => none
  | fuel + 1, index, cap0, output =>
    let output := output ++ (['\t'] ++ cap0 ++ ['\n'])
    match indexIn cc dkpgPattern m_deviceTestOutput (index + 1) with
    | none => some output
    | some (index, m) => pkgLoop cc m_deviceTestOutput fuel index (cap dkpgPattern m 0) output

/-- Models `MaemoSettingsWidget::parseTestOutput()`, as a function of the buffer
`m_deviceTestOutput`.  The loop runs with fuel `length + 1`. -/
def parseTestOutput (cc : CharClasses) (m_deviceTestOutput : QString) : Option QString :=
  match indexIn cc unamePattern m_deviceTestOutput 0 with
  | none =>
    some (tr "Device configuration test failed: Unexpected output:\n" ++ m_deviceTestOutput)
  | some (_, um) =>
    let output := arg (tr "Hardware architecture: %1\n") (cap unamePattern um 2)
    let output := output ++ arg (tr "Kernel version: %1\n") (cap unamePattern um 1)
    let output := tr "Device configuration successful.\n" ++ output
    match indexIn cc dkpgPattern m_deviceTestOutput 0 with
    | none => some (output ++ "No Qt packages installed.".toList)
    | some (index, m) =>
      let output := output ++ "List of installed Qt packages:\n".toList
      pkgLoop cc m_deviceTestOutput (m_deviceTestOutput.length + 1) index
        (cap dkpgPattern m 0) output

/-- The match of the pattern at position `p` of the string, when there is
one: the position lies in the string (or at its end) and the pattern matches
the text that starts there. -/
def matchAt (cc : CharClasses) (items : List Item) (str : QString) (p : Nat) :
    Option (List QString) :=
  if p ≤ str.length then matchHere cc items (str.drop p) else none

/-- Every match of the pattern in the string `s`, which starts at position `i`
of the subject: one entry per position at which the pattern matches, from left
to right. -/
def allMatches (cc : CharClasses) (items : List Item) : QString → Nat → List (Nat × List QString)
  | [], i => ((matchHere cc items []).map (fun m => (i, m))).toList
  | c :: t, i =>
    ((matchHere cc items (c :: t)).map (fun m => (i, m))).toList ++ allMatches cc items t (i + 1)

/-- One line of the package list: a tab, the descriptor, a line feed. -/
def packageLine (d : QString) : QString := ['\t'] ++ d ++ ['\n']

/-- The lines of the package list for the given descriptors. -/
def packageLines (ds : List QString) : QString := (ds.map packageLine).flatten

/-- The head of a success report for architecture `a` and kernel `k`. -/
def successHeader (a k : QString) : QString :=
  "Device configuration successful.\nHardware architecture: ".toList ++ a
    ++ "\nKernel version: ".toList ++ k ++ "\n".toList

/-- The head of the failure report of the parser. -/
def unexpectedHeader : QString :=
  "Device configuration test failed: Unexpected output:\n".toList

/-- The loop of the package scan as the specification words it ("all
non-overlapping matches"): like `pkgLoop`, but the search resumes at the end of
the previous match.  It is not the code; it only serves the comparison with
`pkgLoop`. -/
def pkgLoopFromEnd (cc : CharClasses) (m_deviceTestOutput : QString) :
    Nat → Nat → QString → QString → Option QString
  | 0, _, _, _ => none
  | fuel + 1, index, cap0, output =>
    let output := output ++ (['\t'] ++ cap0 ++ ['\n'])
    match indexIn cc dkpgPattern m_deviceTestOutput (index + cap0.length) with
    | none => some output
    | some (index, m) =>
      pkgLoopFromEnd cc m_deviceTestOutput fuel index (cap dkpgPattern m 0) output

/-- The parser with the package scan of `pkgLoopFromEnd` in place of the one
of the code; for comparison only. -/
def parseTestOutputFromEnd (cc : CharClasses) (m_deviceTestOutput : QString) : Option QString :=
  match indexIn cc unamePattern m_deviceTestOutput 0 with
  | none =>
    some (tr "Device configuration test failed: Unexpected output:\n" ++ m_deviceTestOutput)
  | some (_, um) =>
    let output := arg (tr "Hardware architecture: %1\n") (cap unamePattern um 2)
    let output := output ++ arg (tr "Kernel version: %1\n") (cap unamePattern um 1)
    let output := tr "Device configuration successful.\n" ++ output
    match indexIn cc dkpgPattern m_deviceTestOutput 0 with
    | none => some (output ++ "No Qt packages installed.".toList)
    | some (index, m) =>
      let output := output ++ "List of installed Qt packages:\n".toList
      pkgLoopFromEnd cc m_deviceTestOutput (m_deviceTestOutput.length + 1) index
        (cap dkpgPattern m 0) output

/-! ## The settings widget and its device tester -/

/-- The enumeration `MaemoDeviceConfig::DeviceType`. -/
inductive DeviceType where
  | Physical
  | Simulator
  deriving DecidableEq, Repr

/-- The enumeration `MaemoDeviceConfig::AuthType`. -/
inductive AuthType where
  | Password
  | Key
  deriving DecidableEq, Repr

/-- Modelled from the spec: `MaemoDeviceConfig` is declared in
`maemodeviceconfigurations.h`, which is not among the sources; the fields are
those the data model lists and `MaemoSettingsWidget::display` reads. -/
structure MaemoDeviceConfig where
  name : QString
  type : DeviceType
  authentication : AuthType
  host : QString
  port : Int
  timeout : Int
  uname : QString
  pwd : QString
  keyFile : QString
  deriving DecidableEq, Repr

/-- Modelled from the spec: the connection a runner holds in `m_connection`
(`MaemoSshConnection::Ptr`); its class is not among the sources.  Only whether
`stop()` was called on it is kept. -/
structure MaemoSshConnection where
  stopped : Bool
  deriving DecidableEq, Repr

/-- A `MaemoSshRunner` with the members of `MaemoSshThread` it inherits.
`m_connection` is `none` while the shared pointer is null, that is until
`runInternal` has assigned the result of `create`.  `signalsConnected` tells
whether the signals of the runner are still connected to the slots of the
widget. -/
structure MaemoSshRunner where
  m_devConf : MaemoDeviceConfig
  m_command : QString
  m_error : QString
  m_connection : Option MaemoSshConnection
  signalsConnected : Bool
  deriving DecidableEq, Repr

/-- Modelled from the spec: `MaemoSshThread::hasError()` is declared in
`maemosshthread.h`, which is not among the sources; the session holds an
optional transport error message, so there is an error when the message
recorded by `run()` is not empty. -/
def MaemoSshRunner.hasError (r : MaemoSshRunner) : Bool := !r.m_error.isEmpty

/-- Why a call does not return normally. -/
inductive Fault where
  /-- a member is called through the null `m_connection` -/
  | nullConnection
  /-- a `Q_ASSERT` fails -/
  | assertion
  /-- a loop has used up its fuel -/
  | outOfFuel
  deriving DecidableEq, Repr

/-- Models `MaemoSshThread::stop()`, that is `connection()->stop()`.  With a null connection
the call goes through a null pointer. -/
def MaemoSshThread.stop (r : MaemoSshRunner) : Except Fault MaemoSshRunner :=
  match r.m_connection with
  | none => .error .nullConnection
  | some c => .ok { r with m_connection := some { c with stopped := true } }

/-- The slots the `clicked()` signal of the test button gets connected to. -/
inductive ButtonSlot where
  | testConfig
  | stopConfigTest
  deriving DecidableEq, Repr

/-- The button `m_ui->testConfigButton`: its text, whether it is enabled, and
the slots connected to `clicked()`. -/
structure PushButton where
  text : QString
  enabled : Bool
  clicked : List ButtonSlot
  deriving DecidableEq, Repr

/-- The part of `Ui_maemoSettingsWidget` the slots read and write: the rows of
the list widget and the selected row (at most one), the line edits and radio
buttons of the details pane, the buttons and the result box. -/
structure Ui where
  configListWidget : List QString
  selectedRow : Option Nat
  nameLineEdit : QString
  deviceButton : Bool
  passwordButton : Bool
  hostLineEdit : QString
  portLineEdit : QString
  timeoutLineEdit : QString
  userLineEdit : QString
  pwdLineEdit : QString
  keyFileLineEdit : QString
  detailsWidgetEnabled : Bool
  removeConfigButtonEnabled : Bool
  testConfigButton : PushButton
  testResultEdit : QString
  deriving DecidableEq, Repr

/-- The members of `MaemoSettingsWidget` (built with `USE_SSH_LIB`).  The
validators are kept by the value they fall back to.  `liveRunners` counts the
`MaemoSshRunner` objects created with `new` and not yet deleted. -/
structure MaemoSettingsWidget where
  m_ui : Ui
  m_devConfs : List MaemoDeviceConfig
  m_portValidator : Int
  m_timeoutValidator : Int
  m_nameValidator : QString
  m_deviceTester : Option MaemoSshRunner
  m_deviceTestOutput : QString
  m_defaultTestOutput : QString
  liveRunners : Nat
  deriving DecidableEq, Repr

/-- Models `QString::number(n)`. -/
def number (n : Int) : QString := (toString n).toList

/-- Models `MaemoSettingsWidget::currentConfig()`, with its three assertions. -/
def currentConfig (s : MaemoSettingsWidget) : Except Fault MaemoDeviceConfig :=
  if s.m_ui.configListWidget.length = s.m_devConfs.length then
    match s.m_ui.selectedRow with
    | none => .error .assertion
    | some selectedRow =>
      match s.m_devConfs.get? selectedRow with
      | none => .error .assertion
      | some devConf => .ok devConf
  else .error .assertion

/-- The command `testConfig` sends: `sysInfoCmd + " && " + qtInfoCmd`. -/
def testCommand : QString :=
  "uname -rsm".toList ++ " && ".toList ++
    ("dpkg -l |grep libqt " ++ "|sed 's/[[:space:]][[:space:]]*/ /g' " ++
      "|cut -d ' ' -f 2,3 |sed 's/~.*//g'").toList

/-- Models `MaemoSettingsWidget::testConfig()`: nothing happens while a tester
is active; otherwise the result box is reset and a runner is created for the
current configuration and started. -/
def testConfig (s : MaemoSettingsWidget) : Except Fault MaemoSettingsWidget :=
  match s.m_deviceTester with
  | some _ => .ok s
  | none =>
    let s := { s with m_ui := { s.m_ui with testResultEdit := s.m_defaultTestOutput } }
    match currentConfig s with
    | .error f => .error f
    | .ok devConf =>
      .ok { s with
        m_deviceTester := some
          { m_devConf := devConf, m_command := testCommand, m_error := [],
            m_connection := none, signalsConnected := true }
        liveRunners := s.liveRunners + 1 }

/-- Models `MaemoSettingsWidget::enableTestStop()`: the test button becomes the
stop button. -/
def enableTestStop (s : MaemoSettingsWidget) : MaemoSettingsWidget :=
  { s with m_ui := { s.m_ui with
      testConfigButton :=
        { s.m_ui.testConfigButton with text := tr "Stop test", clicked := [.stopConfigTest] } } }

/-- Models `MaemoSettingsWidget::processSshOutput(data)`: the chunk is appended
to the buffer. -/
def processSshOutput (s : MaemoSettingsWidget) (data : QString) : MaemoSettingsWidget :=
  { s with m_deviceTestOutput := s.m_deviceTestOutput ++ data }

/-- Models `MaemoSettingsWidget::stopConfigTest()`: with an active tester, its
signals are disconnected, it is stopped and deleted, the buffer is cleared and
the button becomes the test button again; with none, nothing happens. -/
def stopConfigTest (s : MaemoSettingsWidget) : Except Fault MaemoSettingsWidget :=
  match s.m_deviceTester with
  | none => .ok s
  | some r =>
    let r := { r with signalsConnected := false }
    let buttonWasEnabled := s.m_ui.testConfigButton.enabled
    let s := { s with m_ui := { s.m_ui with
      testConfigButton := { s.m_ui.testConfigButton with enabled := false } } }
    match MaemoSshThread.stop r with
    | .error f => .error f
    | .ok _ =>
      .ok { s with
        m_deviceTester := none
        liveRunners := s.liveRunners - 1
        m_deviceTestOutput := []
        m_ui := { s.m_ui with
          testConfigButton :=
            { text := tr "Test", clicked := [.testConfig], enabled := buttonWasEnabled } } }

/-- The text `handleSshFinished` puts in its local `output` for the active
runner `r`: the transport error, or else the report of the parser. -/
def finishedOutput (cc : CharClasses) (s : MaemoSettingsWidget) (r : MaemoSshRunner) :
    Option QString :=
  if r.hasError then some (tr "Device configuration test failed:\n" ++ r.m_error)
  else parseTestOutput cc s.m_deviceTestOutput

/-- Models `MaemoSettingsWidget::handleSshFinished()`: with an active tester,
the output text is shown and the test is stopped. -/
def handleSshFinished (cc : CharClasses) (s : MaemoSettingsWidget) :
    Except Fault MaemoSettingsWidget :=
  match s.m_deviceTester with
  | none => .ok s
  | some r =>
    match finishedOutput cc s r with
    | none => .error .outOfFuel
    | some output =>
      stopConfigTest { s with m_ui := { s.m_ui with testResultEdit := output } }

/-- Models `MaemoSettingsWidget::clearDetails()`. -/
def clearDetails (s : MaemoSettingsWidget) : MaemoSettingsWidget :=
  { s with m_ui := { s.m_ui with
      nameLineEdit := [], hostLineEdit := [], portLineEdit := [], timeoutLineEdit := [],
      userLineEdit := [], pwdLineEdit := [] } }

/-- Models `MaemoSettingsWidget::display(devConfig)`; a radio button is kept by
whether the first of its pair is checked. -/
def display (s : MaemoSettingsWidget) (devConfig : MaemoDeviceConfig) : MaemoSettingsWidget :=
  { s with
    m_ui := { s.m_ui with
      nameLineEdit := devConfig.name
      deviceButton := decide (devConfig.type = DeviceType.Physical)
      passwordButton := decide (devConfig.authentication = AuthType.Password)
      hostLineEdit := devConfig.host
      portLineEdit := number devConfig.port
      timeoutLineEdit := number devConfig.timeout
      userLineEdit := devConfig.uname
      pwdLineEdit := devConfig.pwd
      keyFileLineEdit := devConfig.keyFile
      detailsWidgetEnabled := true }
    m_nameValidator := devConfig.name
    m_portValidator := devConfig.port
    m_timeoutValidator := devConfig.timeout }

/-- Models `MaemoSettingsWidget::selectionChanged()`, run on the selection that
`m_ui.selectedRow` holds. -/
def selectionChanged (s : MaemoSettingsWidget) : Except Fault MaemoSettingsWidget :=
  match stopConfigTest s with
  | .error f => .error f
  | .ok s =>
    let s := { s with m_ui := { s.m_ui with testResultEdit := s.m_defaultTestOutput } }
    match s.m_ui.selectedRow with
    | none =>
      let s := { s with m_ui := { s.m_ui with
        removeConfigButtonEnabled := false
        testConfigButton := { s.m_ui.testConfigButton with enabled := false } } }
      let s := clearDetails s
      .ok { s with m_ui := { s.m_ui with detailsWidgetEnabled := false } }
    | some _ =>
      let s := { s with m_ui := { s.m_ui with
        removeConfigButtonEnabled := true
        testConfigButton := { s.m_ui.testConfigButton with enabled := true } } }
      match currentConfig s with
      | .error f => .error f
      | .ok devConf => .ok (display s devConf)

/-- The widget as its constructor leaves it: no tester, an empty output
buffer, the default text in the result box.  What comes from the form
(`ui`) and from the stored settings (`devConfs`) is given. -/
def initialWidget (ui : Ui) (devConfs : List MaemoDeviceConfig) (portValue timeoutValue : Int) :
    MaemoSettingsWidget where
  m_ui := { ui with configListWidget := ui.configListWidget ++ devConfs.map (fun d => d.name) }
  m_devConfs := devConfs
  m_portValidator := portValue
  m_timeoutValidator := timeoutValue
  m_nameValidator := []
  m_deviceTester := none
  m_deviceTestOutput := []
  m_defaultTestOutput := ui.testResultEdit
  liveRunners := 0

/-- One step of the widget: a slot runs to its end, or the thread of the
active runner makes progress in `run()` (it assigns the connection, or it
records the error of a `MaemoSshException`).  `edit` stands for the slots that
edit the configurations and the details pane: they leave the tester, the
runner count, the output buffer and the test button alone. -/
inductive Step (cc : CharClasses) : MaemoSettingsWidget → MaemoSettingsWidget → Prop where
  | testConfig (s t : MaemoSettingsWidget) : testConfig s = .ok t → Step cc s t
  | enableTestStop (s : MaemoSettingsWidget) : Step cc s (enableTestStop s)
  | processSshOutput (s : MaemoSettingsWidget) (data : QString) :
      Step cc s (processSshOutput s data)
  | handleSshFinished (s t : MaemoSettingsWidget) : handleSshFinished cc s = .ok t → Step cc s t
  | stopConfigTest (s t : MaemoSettingsWidget) : stopConfigTest s = .ok t → Step cc s t
  | selectionChanged (s t : MaemoSettingsWidget) (row : Option Nat) :
      selectionChanged { s with m_ui := { s.m_ui with selectedRow := row } } = .ok t →
      Step cc s t
  | edit (s t : MaemoSettingsWidget) :
      t.m_deviceTester = s.m_deviceTester → t.liveRunners = s.liveRunners →
      t.m_deviceTestOutput = s.m_deviceTestOutput →
      t.m_ui.testConfigButton = s.m_ui.testConfigButton → Step cc s t
  | runConnected (s : MaemoSettingsWidget) (r : MaemoSshRunner) (c : MaemoSshConnection) :
      s.m_deviceTester = some r →
      Step cc s { s with m_deviceTester := some { r with m_connection := some c } }
  | runFailed (s : MaemoSettingsWidget) (r : MaemoSshRunner) (error : QString) :
      s.m_deviceTester = some r →
      Step cc s { s with m_deviceTester := some { r with m_error := error } }

/-- The states the widget can reach from its construction. -/
inductive Reachable (cc : CharClasses) : MaemoSettingsWidget → Prop where
  | init (ui : Ui) (devConfs : List MaemoDeviceConfig) (portValue timeoutValue : Int) :
      Reachable cc (initialWidget ui devConfs portValue timeoutValue)
  | step (s t : MaemoSettingsWidget) : Reachable cc s → Step cc s t → Reachable cc t

/-! ## A sample session -/

/-- A device configuration for the examples. -/
def sampleConfig : MaemoDeviceConfig where
  name := "N900".toList
  type := .Physical
  authentication := .Password
  host := "192.168.2.15".toList
  port := 22
  timeout := 30
  uname := "user".toList
  pwd := "secret".toList
  keyFile := []

/-- The form before any configuration is listed or selected. -/
def sampleUi : Ui where
  configListWidget := []
  selectedRow := none
  nameLineEdit := []
  deviceButton := true
  passwordButton := true
  hostLineEdit := []
  portLineEdit := []
  timeoutLineEdit := []
  userLineEdit := []
  pwdLineEdit := []
  keyFileLineEdit := []
  detailsWidgetEnabled := false
  removeConfigButtonEnabled := false
  testConfigButton := { text := "Test".toList, enabled := false, clicked := [.testConfig] }
  testResultEdit := "No current test results available.".toList

/-- The widget right after its construction with one stored configuration. -/
def sampleWidget : MaemoSettingsWidget := initialWidget sampleUi [sampleConfig] 0 0

/-- The sample widget after the user has selected the configuration. -/
def selectedWidget : MaemoSettingsWidget :=
  { sampleWidget with
    m_ui := { sampleWidget.m_ui with
      selectedRow := some 0
      nameLineEdit := sampleConfig.name
      hostLineEdit := sampleConfig.host
      portLineEdit := number 22
      timeoutLineEdit := number 30
      userLineEdit := sampleConfig.uname
      pwdLineEdit := sampleConfig.pwd
      detailsWidgetEnabled := true
      removeConfigButtonEnabled := true
      testConfigButton := { sampleWidget.m_ui.testConfigButton with enabled := true } }
    m_nameValidator := sampleConfig.name
    m_portValidator := 22
    m_timeoutValidator := 30 }

/-- The runner `testConfig` creates for the sample configuration. -/
def sampleRunner : MaemoSshRunner where
  m_devConf := sampleConfig
  m_command := testCommand
  m_error := []
  m_connection := none
  signalsConnected := true

/-- The selected widget while the runner `r` is its device tester. -/
def testingWidget (r : MaemoSshRunner) : MaemoSettingsWidget :=
  { selectedWidget with m_deviceTester := some r, liveRunners := 1 }

/-- The runner after `create` has thrown: `run()` has recorded the error and
`m_connection` was never assigned. -/
def failedRunner : MaemoSshRunner :=
  { sampleRunner with m_error := "Could not connect to host.".toList }

/-- The runner after `create` has returned a connection. -/
def connectedRunner : MaemoSshRunner :=
  { sampleRunner with m_connection := some { stopped := false } }

/-! ## The thread of the runner -/

/-- What the two library calls of `MaemoSshRunner::runInternal` do: `create`
throws a `MaemoSshException`, or it returns a connection and `runCommand`
throws, or both return. -/
inductive RunOutcome where
  | createThrows (error : QString)
  | commandThrows (c : MaemoSshConnection) (error : QString)
  | completes (c : MaemoSshConnection)
  deriving DecidableEq, Repr

/-- Models `MaemoSshThread::run()` for a runner: `runInternal` assigns
`m_connection` once `create` has returned, and `run` records the error of an
exception in `m_error`. -/
def MaemoSshRunner.run (r : MaemoSshRunner) : RunOutcome → MaemoSshRunner
  | .createThrows error => { r with m_error := error }
  | .commandThrows c error => { r with m_connection := some c, m_error := error }
  | .completes c => { r with m_connection := some c }

/-! ## The validators -/

/-- Modelled from the spec: `DevConfNameMatcher` is declared in
`maemodeviceconfigurations.h`, which is not among the sources; it matches a
configuration by its name. -/
def DevConfNameMatcher (name : QString) (devConf : MaemoDeviceConfig) : Bool :=
  devConf.name == name

/-- Models `configNameExists(devConfs, name)`: `std::find_if` finds a
configuration the matcher accepts. -/
def configNameExists (devConfs : List MaemoDeviceConfig) (name : QString) : Bool :=
  (devConfs.find? (DevConfNameMatcher name)).isSome

/-- The enumeration `QValidator::State`. -/
inductive ValidatorState where
  | Invalid
  | Intermediate
  | Acceptable
  deriving DecidableEq, Repr

/-- Models `QString::trimmed()`: the string without the spaces at its start and
at its end. -/
def trimmed (cc : CharClasses) (s : QString) : QString :=
  ((s.dropWhile cc.isSpace).reverse.dropWhile cc.isSpace).reverse

/-- Models `NameValidator::validate(input, pos)` for a validator that refers to
`m_devConfs` and holds `m_oldName`. -/
def NameValidator.validate (cc : CharClasses) (m_devConfs : List MaemoDeviceConfig)
    (m_oldName : QString) (input : QString) : ValidatorState :=
  if (trimmed cc input).isEmpty || (input != m_oldName && configNameExists m_devConfs input)
  then .Intermediate
  else .Acceptable

/-- Models `NameValidator::fixup(input)`; the result is the new value of
`input`. -/
def NameValidator.fixup (cc : CharClasses) (m_devConfs : List MaemoDeviceConfig)
    (m_oldName : QString) (input : QString) : QString :=
  if NameValidator.validate cc m_devConfs m_oldName input ≠ .Acceptable then m_oldName
  else input

/-- The constant `SHRT_MAX`. -/
def SHRT_MAX : Int := 32767

/-- The value of a decimal digit. -/
def digitValue (c : Char) : Option Nat :=
  if 48 ≤ c.toNat ∧ c.toNat ≤ 57 then some (c.toNat - 48) else none

/-- The number a string of decimal digits denotes, read after the digits that
gave `acc`; `none` when a character is not a digit. -/
def decimalValue : QString → Nat → Option Nat
  | [], acc => some acc
  | c :: t, acc =>
    match digitValue c with
    | none => none
    | some d => decimalValue t (acc * 10 + d)

/-- The integer a string denotes in the C locale: an optional sign and at
least one decimal digit. -/
def toLongLong : QString → Option Int
  | [] => none
  | '-' :: t => if t = [] then none else (decimalValue t 0).map (fun v => -(v : Int))
  | '+' :: t => if t = [] then none else (decimalValue t 0).map (fun v => (v : Int))
  | c :: t => (decimalValue (c :: t) 0).map (fun v => (v : Int))

/-- Models `QString::toInt(&ok)` in the C locale: the integer the string
denotes when it fits an `int`; `none` stands for `ok == false`. -/
def toInt (input : QString) : Option Int :=
  match toLongLong input with
  | none => none
  | some v => if -2147483648 ≤ v ∧ v ≤ 2147483647 then some v else none

/-- Models `QIntValidator::validate(input, pos)` of the Qt library for the
range `bottom` to `top`, in the C locale: the input is acceptable when it
denotes an integer of the range; it is intermediate when it is empty, a lone
sign, or an integer outside the range that more typing could bring into it;
it is invalid otherwise. -/
def QIntValidator.validate (bottom top : Int) (input : QString) : ValidatorState :=
  if input = [] then .Intermediate
  else if 0 ≤ bottom ∧ input.head? = some '-' then .Invalid
  else if top < 0 ∧ input.head? = some '+' then .Invalid
  else if input = ['+'] ∨ input = ['-'] then .Intermediate
  else
    match toLongLong input with
    | none => .Invalid
    | some entered =>
      if bottom ≤ entered ∧ entered ≤ top then .Acceptable
      else if 0 ≤ entered then
        (if top < entered ∧ -entered < bottom then .Invalid else .Intermediate)
      else (if entered < bottom then .Invalid else .Intermediate)

/-- Models `PortAndTimeoutValidator::validate`, inherited from
`QIntValidator(0, SHRT_MAX, 0)`. -/
def PortAndTimeoutValidator.validate (input : QString) : ValidatorState :=
  QIntValidator.validate 0 SHRT_MAX input

/-- Models `PortAndTimeoutValidator::fixup(input)`; the result is the new value
of `input`. -/
def PortAndTimeoutValidator.fixup (m_oldValue : Int) (input : QString) : QString :=
  if PortAndTimeoutValidator.validate input ≠ .Acceptable then number m_oldValue else input

/-! ## Editing the configurations -/

/-- The row `currentConfig()` returns a reference to, with its three
assertions. -/
def currentRow (s : MaemoSettingsWidget) : Except Fault Nat :=
  if s.m_ui.configListWidget.length = s.m_devConfs.length then
    match s.m_ui.selectedRow with
    | none => .error .assertion
    | some selectedRow =>
      if selectedRow < s.m_devConfs.length then .ok selectedRow else .error .assertion
  else .error .assertion

/-- Models `MaemoSettingsWidget::setPortOrTimeout` on the text of the line
edit: the value for `confVal` and for the validator. -/
def setPortOrTimeout (text : QString) : Except Fault Int :=
  match toInt text with
  | none => .error .assertion
  | some confVal => .ok confVal

/-- Models `MaemoSettingsWidget::portEditingFinished()`. -/
def portEditingFinished (s : MaemoSettingsWidget) : Except Fault MaemoSettingsWidget :=
  match currentRow s with
  | .error f => .error f
  | .ok row =>
    match setPortOrTimeout s.m_ui.portLineEdit with
    | .error f => .error f
    | .ok confVal =>
      .ok { s with
        m_devConfs := s.m_devConfs.modify (fun d => { d with port := confVal }) row
        m_portValidator := confVal }

/-- Models `MaemoSettingsWidget::timeoutEditingFinished()`. -/
def timeoutEditingFinished (s : MaemoSettingsWidget) : Except Fault MaemoSettingsWidget :=
  match currentRow s with
  | .error f => .error f
  | .ok row =>
    match setPortOrTimeout s.m_ui.timeoutLineEdit with
    | .error f => .error f
    | .ok confVal =>
      .ok { s with
        m_devConfs := s.m_devConfs.modify (fun d => { d with timeout := confVal }) row
        m_timeoutValidator := confVal }

/-- The name `addConfig` tries for the number `suffix`. -/
def newConfigName (suffix : Nat) : QString :=
  "New Device Configuration ".toList ++ number (suffix : Int)

/-- The `do ... while (!isUnique)` loop of `addConfig`: it tries the name for
`suffix` and goes on with `suffix + 1` when a configuration has that name.
`fuel` bounds the number of iterations.  The counter is an `int` in the
source; it stays far below the largest `int`, as it is at most one more than
the number of configurations. -/
def newConfigLoop (devConfs : List MaemoDeviceConfig) : Nat → Nat → Option QString
  | 0, _ => none
  | fuel + 1, suffix =>
    let newName := newConfigName suffix
    let isUnique := !configNameExists devConfs newName
    if isUnique then some newName else newConfigLoop devConfs fuel (suffix + 1)

/-- Modelled from the spec: the constructor `MaemoDeviceConfig(name)` is
defined outside the sources; it gives the configuration the name and leaves
the other fields at their defaults, which `defaults` holds. -/
def MaemoDeviceConfig.named (defaults : MaemoDeviceConfig) (name : QString) :
    MaemoDeviceConfig :=
  { defaults with name := name }

/-- Models `MaemoSettingsWidget::addConfig()`.  The loop runs with fuel
`length + 1`.  `setCurrentRow` selects the new row and so emits
`itemSelectionChanged`, which runs the slot `selectionChanged`; selecting the
text and giving the focus to the name line edit leave the state as it is. -/
def addConfig (defaults : MaemoDeviceConfig) (s : MaemoSettingsWidget) :
    Except Fault MaemoSettingsWidget :=
  match newConfigLoop s.m_devConfs (s.m_devConfs.length + 1) 1 with
  | none => .error .outOfFuel
  | some newName =>
    let s := { s with
      m_devConfs := s.m_devConfs ++ [defaults.named newName]
      m_ui := { s.m_ui with configListWidget := s.m_ui.configListWidget ++ [newName] } }
    let s := { s with m_ui := { s.m_ui with
      selectedRow := some (s.m_ui.configListWidget.length - 1) } }
    match selectionChanged s with
    | .error f => .error f
    | .ok s => .ok { s with m_ui := { s.m_ui with removeConfigButtonEnabled := true } }

/-- Models `MaemoSettingsWidget::deleteConfig()`.  `rowAfter` is the row the
list widget has selected once the item is taken out. -/
def deleteConfig (s : MaemoSettingsWidget) (rowAfter : Option Nat) :
    Except Fault MaemoSettingsWidget :=
  match s.m_ui.selectedRow with
  | none => .ok s
  | some selectedRow =>
    let s := { s with
      m_devConfs := s.m_devConfs.eraseIdx selectedRow
      m_ui := { s.m_ui with
        configListWidget := s.m_ui.configListWidget.eraseIdx selectedRow
        selectedRow := rowAfter } }
    if s.m_ui.configListWidget.length = s.m_devConfs.length then selectionChanged s
    else .error .assertion

/-- Models `MaemoSettingsWidget::configNameEditingFinished()`; the current item
of the list widget is the selected one. -/
def configNameEditingFinished (s : MaemoSettingsWidget) : Except Fault MaemoSettingsWidget :=
  let newName := s.m_ui.nameLineEdit
  match currentRow s with
  | .error f => .error f
  | .ok row =>
    .ok { s with
      m_devConfs := s.m_devConfs.modify (fun d => { d with name := newName }) row
      m_nameValidator := newName
      m_ui := { s.m_ui with configListWidget := s.m_ui.configListWidget.set row newName } }

/-- The names of the configurations are not empty and no two are equal. -/
def NamesValid (devConfs : List MaemoDeviceConfig) : Prop :=
  (∀ d ∈ devConfs, d.name ≠ []) ∧ (devConfs.map (fun d => d.name)).Nodup

/-- The name validator holds the name of the selected configuration, as
`display` and `configNameEditingFinished` leave it. -/
def NameValidatorInSync (s : MaemoSettingsWidget) : Prop :=
  ∀ row d, s.m_ui.selectedRow = some row → s.m_devConfs.get? row = some d →
    s.m_nameValidator = d.name

/-- The tester, if any, has a connection, so that `stopConfigTest` returns. -/
def CanStop (s : MaemoSettingsWidget) : Prop :=
  ∀ r, s.m_deviceTester = some r → r.m_connection ≠ none

/-- The selected sample widget once the user has typed a new name for the
configuration. -/
def renamingWidget : MaemoSettingsWidget :=
  { selectedWidget with
    m_ui := { selectedWidget.m_ui with nameLineEdit := "Phone".toList } }

/-! ## Steps with the signals of the runner wired as in the source -/

/-- One step of the widget in which the three slots that `testConfig` connects
to the signals of the runner (`enableTestStop`, `processSshOutput`,
`handleSshFinished`) run only while a tester is active and its signals are
connected, that is from `testConfig` to the `disconnect()` in `stopConfigTest`.
The other steps are those of `Step`. -/
inductive WiredStep (cc : CharClasses) : MaemoSettingsWidget → MaemoSettingsWidget → Prop where
  | testConfig (s t : MaemoSettingsWidget) : testConfig s = .ok t → WiredStep cc s t
  | enableTestStop (s : MaemoSettingsWidget) (r : MaemoSshRunner) :
      s.m_deviceTester = some r → r.signalsConnected = true →
      WiredStep cc s (enableTestStop s)
  | processSshOutput (s : MaemoSettingsWidget) (r : MaemoSshRunner) (data : QString) :
      s.m_deviceTester = some r → r.signalsConnected = true →
      WiredStep cc s (processSshOutput s data)
  | handleSshFinished (s t : MaemoSettingsWidget) (r : MaemoSshRunner) :
      s.m_deviceTester = some r → r.signalsConnected = true →
      handleSshFinished cc s = .ok t → WiredStep cc s t
  | stopConfigTest (s t : MaemoSettingsWidget) : stopConfigTest s = .ok t → WiredStep cc s t
  | selectionChanged (s t : MaemoSettingsWidget) (row : Option Nat) :
      selectionChanged { s with m_ui := { s.m_ui with selectedRow := row } } = .ok t →
      WiredStep cc s t
  | edit (s t : MaemoSettingsWidget) :
      t.m_deviceTester = s.m_deviceTester → t.liveRunners = s.liveRunners →
      t.m_deviceTestOutput = s.m_deviceTestOutput →
      t.m_ui.testConfigButton = s.m_ui.testConfigButton → WiredStep cc s t
  | runConnected (s : MaemoSettingsWidget) (r : MaemoSshRunner) (c : MaemoSshConnection) :
      s.m_deviceTester = some r →
      WiredStep cc s { s with m_deviceTester := some { r with m_connection := some c } }
  | runFailed (s : MaemoSettingsWidget) (r : MaemoSshRunner) (error : QString) :
      s.m_deviceTester = some r →
      WiredStep cc s { s with m_deviceTester := some { r with m_error := error } }

/-- The states the widget can reach from its construction by wired steps. -/
inductive WiredReachable (cc : CharClasses) : MaemoSettingsWidget → Prop where
  | init (ui : Ui) (devConfs : List MaemoDeviceConfig) (portValue timeoutValue : Int) :
      WiredReachable cc (initialWidget ui devConfs portValue timeoutValue)
  | step (s t : MaemoSettingsWidget) : WiredReachable cc s → WiredStep cc s t →
      WiredReachable cc t

/-! ## The search `indexIn` -/

theorem drop_drop_add {α : Type} (l : List α) (a b : Nat) :
    (l.drop a).drop b = l.drop (a + b) := by
  rw [List.drop_drop]

theorem drop_tail_of_drop_eq_cons {α : Type} {l : List α} {i : Nat} {c : α} {t : List α}
    (h : l.drop i = c :: t) : l.drop (i + 1) = t ∧ i < l.length := by
  constructor
  · have := drop_drop_add l i 1
    rw [h] at this
    simpa using this.symm
  · by_contra hlt
    rw [List.drop_eq_nil_of_le (by omega)] at h
    cases h

theorem indexInAux_eq_none (cc : CharClasses) (items : List Item) :
    ∀ (s : QString) (i : Nat), indexInAux cc items s i = none ↔
      ∀ k, k ≤ s.length → matchHere cc items (s.drop k) = none
  | [], i => by
    simp [indexInAux]
  | c :: t, i => by
    unfold indexInAux
    cases hm : matchHere cc items (c :: t) with
    | some m =>
      simp only [false_iff, reduceCtorEq]
      intro h
      have := h 0 (Nat.zero_le _)
      simp [hm] at this
    | none =>
      simp only
      rw [indexInAux_eq_none cc items t (i + 1)]
      constructor
      · intro h k hk
        cases k with
        | zero => simpa using hm
        | succ k => simpa using h k (by simpa using hk)
      · intro h k hk
        simpa using h (k + 1) (by simpa using hk)

theorem indexInAux_eq_some (cc : CharClasses) (items : List Item) :
    ∀ (s : QString) (i j : Nat) (m : List QString), indexInAux cc items s i = some (j, m) ↔
      ∃ k, k ≤ s.length ∧ j = i + k ∧ matchHere cc items (s.drop k) = some m ∧
        ∀ k2, k2 < k → matchHere cc items (s.drop k2) = none
  | [], i, j, m => by
    simp only [indexInAux, Option.map_eq_some', Prod.mk.injEq, List.length_nil, Nat.le_zero_eq,
      List.drop_nil]
    constructor
    · rintro ⟨a, ha, rfl, rfl⟩
      exact ⟨0, rfl, rfl, ha, by simp⟩
    · rintro ⟨k, rfl, rfl, hm, -⟩
      exact ⟨m, hm, rfl, rfl⟩
  | c :: t, i, j, m => by
    unfold indexInAux
    cases hm : matchHere cc items (c :: t) with
    | some m0 =>
      simp only [Option.some.injEq, Prod.mk.injEq]
      constructor
      · rintro ⟨rfl, rfl⟩
        exact ⟨0, Nat.zero_le _, rfl, by simpa using hm, by simp⟩
      · rintro ⟨k, hk, rfl, hk2, hlt⟩
        cases k with
        | zero =>
          simp only [List.drop_zero] at hk2
          rw [hm] at hk2
          simpa using hk2
        | succ k =>
          have := hlt 0 (Nat.succ_pos _)
          simp [hm] at this
    | none =>
      simp only
      rw [indexInAux_eq_some cc items t (i + 1) j m]
      constructor
      · rintro ⟨k, hk, rfl, hk2, hlt⟩
        refine ⟨k + 1, by simpa using hk, by omega, by simpa using hk2, ?_⟩
        intro k2 h2
        cases k2 with
        | zero => simpa using hm
        | succ k2 => simpa using hlt k2 (by omega)
      · rintro ⟨k, hk, rfl, hk2, hlt⟩
        cases k with
        | zero =>
          simp only [List.drop_zero] at hk2
          rw [hm] at hk2
          cases hk2
        | succ k =>
          refine ⟨k, by simpa using hk, by omega, by simpa using hk2, ?_⟩
          intro k2 h2
          simpa using hlt (k2 + 1) (by omega)

theorem indexIn_eq_none (cc : CharClasses) (items : List Item) (str : QString) (offset : Nat)
    (ho : offset ≤ str.length) :
    indexIn cc items str offset = none ↔
      ∀ p, offset ≤ p → matchAt cc items str p = none := by
  unfold indexIn matchAt
  rw [if_pos ho, indexInAux_eq_none]
  constructor
  · intro h p hp
    split
    · next hle =>
      have := h (p - offset) (by simp; omega)
      rw [drop_drop_add] at this
      rwa [show offset + (p - offset) = p by omega] at this
    · rfl
  · intro h k hk
    have hk2 : offset + k ≤ str.length := by simp at hk; omega
    have := h (offset + k) (by omega)
    rw [if_pos hk2] at this
    rwa [drop_drop_add]

theorem indexIn_eq_some (cc : CharClasses) (items : List Item) (str : QString) (offset j : Nat)
    (m : List QString) :
    indexIn cc items str offset = some (j, m) ↔
      (offset ≤ j ∧ matchAt cc items str j = some m ∧
        ∀ p, offset ≤ p → p < j → matchAt cc items str p = none) := by
  unfold indexIn matchAt
  by_cases ho : offset ≤ str.length
  · rw [if_pos ho, indexInAux_eq_some]
    constructor
    · rintro ⟨k, hk, rfl, hm, hlt⟩
      have hk2 : offset + k ≤ str.length := by simp at hk; omega
      refine ⟨by omega, ?_, ?_⟩
      · rw [if_pos hk2]
        rwa [drop_drop_add] at hm
      · intro p hp hpj
        rw [if_pos (by omega)]
        have := hlt (p - offset) (by omega)
        rw [drop_drop_add] at this
        rwa [show offset + (p - offset) = p by omega] at this
    · rintro ⟨hoj, hm, hlt⟩
      split at hm
      · next hj =>
        refine ⟨j - offset, by simp; omega, by omega, ?_, ?_⟩
        · rw [drop_drop_add]
          rwa [show offset + (j - offset) = j by omega]
        · intro k2 hk2
          have := hlt (offset + k2) (by omega) (by omega)
          rw [if_pos (by omega)] at this
          rwa [drop_drop_add]
      · cases hm
  · rw [if_neg ho]
    simp only [false_iff, reduceCtorEq, not_and]
    intro hoj hm
    rw [if_neg (by omega)] at hm
    cases hm

/-! ## All matches of a pattern -/

theorem allMatches_eq_nil (cc : CharClasses) (items : List Item) :
    ∀ (s : QString) (i : Nat), indexInAux cc items s i = none → allMatches cc items s i = []
  | [], i, h => by
    simp only [indexInAux, Option.map_eq_none'] at h
    simp [allMatches, h]
  | c :: t, i, h => by
    unfold indexInAux at h
    cases hm : matchHere cc items (c :: t) with
    | some m => simp [hm] at h
    | none =>
      simp only [hm] at h
      simp [allMatches, hm, allMatches_eq_nil cc items t (i + 1) h]

theorem allMatches_eq_cons (cc : CharClasses) (items : List Item)
    (h0 : matchHere cc items [] = none) :
    ∀ (s : QString) (i j : Nat) (m : List QString), indexInAux cc items s i = some (j, m) →
      ∃ k c t, j = i + k ∧ s.drop k = c :: t ∧ matchHere cc items (c :: t) = some m ∧
        allMatches cc items s i = (j, m) :: allMatches cc items t (j + 1)
  | [], i, j, m, h => by
    simp [indexInAux, h0] at h
  | c :: t, i, j, m, h => by
    unfold indexInAux at h
    cases hm : matchHere cc items (c :: t) with
    | some m0 =>
      simp only [hm, Option.some.injEq, Prod.mk.injEq] at h
      obtain ⟨rfl, rfl⟩ := h
      exact ⟨0, c, t, rfl, rfl, hm, by simp [allMatches, hm]⟩
    | none =>
      simp only [hm] at h
      obtain ⟨k, c2, t2, rfl, hd, hm2, hall⟩ := allMatches_eq_cons cc items h0 t (i + 1) j m h
      refine ⟨k + 1, c2, t2, by omega, by simpa using hd, hm2, ?_⟩
      simp [allMatches, hm, hall]

theorem mem_allMatches (cc : CharClasses) (items : List Item) :
    ∀ (s : QString) (i j : Nat) (m : List QString), (j, m) ∈ allMatches cc items s i ↔
      ∃ k, k ≤ s.length ∧ j = i + k ∧ matchHere cc items (s.drop k) = some m
  | [], i, j, m => by
    simp only [allMatches, Option.mem_toList, Option.mem_def, Option.map_eq_some', Prod.mk.injEq,
      List.length_nil, Nat.le_zero_eq, List.drop_nil]
    constructor
    · rintro ⟨a, ha, rfl, rfl⟩
      exact ⟨0, rfl, rfl, ha⟩
    · rintro ⟨k, rfl, rfl, hm⟩
      exact ⟨m, hm, rfl, rfl⟩
  | c :: t, i, j, m => by
    simp only [allMatches, List.mem_append, Option.mem_toList, Option.mem_def,
      Option.map_eq_some', Prod.mk.injEq, mem_allMatches cc items t (i + 1) j m]
    constructor
    · rintro (⟨a, ha, rfl, rfl⟩ | ⟨k, hk, rfl, hm⟩)
      · exact ⟨0, Nat.zero_le _, rfl, by simpa using ha⟩
      · exact ⟨k + 1, by simpa using hk, by omega, by simpa using hm⟩
    · rintro ⟨k, hk, rfl, hm⟩
      cases k with
      | zero => exact Or.inl ⟨m, by simpa using hm, rfl, rfl⟩
      | succ k => exact Or.inr ⟨k, by simpa using hk, by omega, by simpa using hm⟩

theorem mem_allMatches_zero (cc : CharClasses) (items : List Item) (str : QString) (j : Nat)
    (m : List QString) :
    (j, m) ∈ allMatches cc items str 0 ↔ matchAt cc items str j = some m := by
  rw [mem_allMatches]
  unfold matchAt
  constructor
  · rintro ⟨k, hk, rfl, hm⟩
    rw [if_pos (by omega)]
    simpa using hm
  · intro h
    split at h
    · next hj => exact ⟨j, hj, by omega, h⟩
    · cases h

theorem allMatches_sorted (cc : CharClasses) (items : List Item) :
    ∀ (s : QString) (i : Nat), (allMatches cc items s i).Pairwise (fun a b => a.1 < b.1)
  | [], i => by
    simp only [allMatches]
    cases matchHere cc items [] <;> simp
  | c :: t, i => by
    simp only [allMatches]
    rw [List.pairwise_append]
    refine ⟨?_, allMatches_sorted cc items t (i + 1), ?_⟩
    · cases matchHere cc items (c :: t) <;> simp
    · intro a ha b hb
      obtain ⟨j, m⟩ := b
      rw [mem_allMatches] at hb
      obtain ⟨k, -, rfl, -⟩ := hb
      cases hm : matchHere cc items (c :: t) with
      | none => simp [hm] at ha
      | some m0 =>
        simp only [hm, Option.map_some', Option.toList_some, List.mem_singleton] at ha
        subst ha
        simp only
        omega

/-! ## The loop of the package scan -/

theorem matchHere_dkpg_nil (cc : CharClasses) : matchHere cc dkpgPattern [] = none := rfl

theorem pkgLoop_eq (cc : CharClasses) (text : QString) :
    ∀ (fuel i : Nat) (d out : QString) (c : Char) (t : QString),
      text.drop i = c :: t → t.length < fuel →
      pkgLoop cc text fuel i d out = some (out ++ packageLine d ++
        packageLines ((allMatches cc dkpgPattern t (i + 1)).map
          (fun p => cap dkpgPattern p.2 0)))
  | 0, _, _, _, _, _, _, hf => by omega
  | fuel + 1, i, d, out, c, t, hd, hf => by
    obtain ⟨hdrop, hi⟩ := drop_tail_of_drop_eq_cons hd
    unfold pkgLoop
    simp only
    unfold indexIn
    rw [if_pos (by omega), hdrop]
    cases hx : indexInAux cc dkpgPattern t (i + 1) with
    | none =>
      simp [allMatches_eq_nil cc dkpgPattern t (i + 1) hx, packageLines, packageLine]
    | some r =>
      obtain ⟨j, m⟩ := r
      obtain ⟨k, c2, t2, hj, hd2, -, hall⟩ :=
        allMatches_eq_cons cc dkpgPattern (matchHere_dkpg_nil cc) t (i + 1) j m hx
      simp only
      have hdj : text.drop j = c2 :: t2 := by
        rw [hj, ← drop_drop_add, hdrop, hd2]
      have hlen : t2.length < fuel := by
        have := congrArg List.length hd2
        simp only [List.length_drop, List.length_cons] at this
        omega
      rw [pkgLoop_eq cc text fuel j _ _ c2 t2 hdj hlen, hall]
      simp [packageLines, packageLine]

/-! ## The report of the parser in closed form -/

theorem arg_architecture (a : QString) :
    arg (tr "Hardware architecture: %1\n") a = "Hardware architecture: ".toList ++ a ++ ['\n'] := by
  simp [tr, arg]

theorem arg_kernel (a : QString) :
    arg (tr "Kernel version: %1\n") a = "Kernel version: ".toList ++ a ++ ['\n'] := by
  simp [tr, arg]

/-- The report of the parser in closed form: the failure header and the text when the
uname pattern matches nowhere, and else the success header for the leftmost
match followed by the whole match of the package pattern at every position at
which it matches. -/
theorem parseTestOutput_eq (cc : CharClasses) (text : QString) :
    parseTestOutput cc text = some
      (match indexIn cc unamePattern text 0 with
       | none => unexpectedHeader ++ text
       | some (_, um) =>
         successHeader (cap unamePattern um 2) (cap unamePattern um 1) ++
           (if allMatches cc dkpgPattern text 0 = [] then "No Qt packages installed.".toList
            else "List of installed Qt packages:\n".toList ++
              packageLines ((allMatches cc dkpgPattern text 0).map
                (fun p => cap dkpgPattern p.2 0)))) := by
  unfold parseTestOutput
  cases hu : indexIn cc unamePattern text 0 with
  | none => simp [tr, unexpectedHeader]
  | some r =>
    obtain ⟨i, um⟩ := r
    simp only [arg_architecture, arg_kernel]
    cases hp : indexIn cc dkpgPattern text 0 with
    | none =>
      have hp2 : indexInAux cc dkpgPattern text 0 = none := by
        simpa [indexIn] using hp
      simp [allMatches_eq_nil cc dkpgPattern text 0 hp2, successHeader, tr]
    | some r2 =>
      obtain ⟨j, m⟩ := r2
      have hp2 : indexInAux cc dkpgPattern text 0 = some (j, m) := by
        simpa [indexIn] using hp
      obtain ⟨k, c, t, hj, hd, -, hall⟩ :=
        allMatches_eq_cons cc dkpgPattern (matchHere_dkpg_nil cc) text 0 j m hp2
      simp only
      have hdj : text.drop j = c :: t := by
        rw [hj, Nat.zero_add, hd]
      have hlen : t.length < text.length + 1 := by
        have := congrArg List.length hd
        simp only [List.length_drop, List.length_cons] at this
        omega
      rw [pkgLoop_eq cc text _ j _ _ c t hdj hlen, hall]
      simp [packageLines, packageLine, successHeader, tr]

/-! ## Greedy `+` -/

theorem matchPlus_sound (cc : CharClasses) (a : Atom) (k : QString → Option (List QString)) :
    ∀ (s m : QString) (caps : List QString), matchPlus cc a k s = some (m, caps) →
      ∃ rest, s = m ++ rest ∧ m ≠ [] ∧ (∀ c ∈ m, a.accepts cc c = true) ∧ k rest = some caps
  | [], m, caps, h => by simp [matchPlus] at h
  | c :: t, m, caps, h => by
    unfold matchPlus at h
    split at h
    · next hc =>
      cases hr : matchPlus cc a k t with
      | some r =>
        obtain ⟨m2, caps2⟩ := r
        simp only [hr, Option.some.injEq, Prod.mk.injEq] at h
        obtain ⟨rfl, rfl⟩ := h
        obtain ⟨rest, rfl, -, hall, hk⟩ := matchPlus_sound cc a k t m2 caps2 hr
        refine ⟨rest, rfl, by simp, ?_, hk⟩
        intro x hx
        rcases List.mem_cons.1 hx with rfl | hx
        · exact hc
        · exact hall x hx
      | none =>
        simp only [hr, Option.map_eq_some', Prod.mk.injEq] at h
        obtain ⟨caps2, hk, rfl, rfl⟩ := h
        exact ⟨t, rfl, by simp, by simpa using hc, hk⟩
    · cases h

/-- When the rest of the pattern cannot start with a character of the class,
`a+` takes the whole run of such characters. -/
theorem matchPlus_disjoint (cc : CharClasses) (a : Atom) (k : QString → Option (List QString))
    (hk : ∀ c t, a.accepts cc c = true → k (c :: t) = none) :
    ∀ s : QString, matchPlus cc a k s =
      if s.takeWhile (a.accepts cc) = [] then none
      else (k (s.dropWhile (a.accepts cc))).map (fun caps => (s.takeWhile (a.accepts cc), caps))
  | [] => by simp [matchPlus]
  | c :: t => by
    unfold matchPlus
    by_cases hc : a.accepts cc c = true
    · rw [if_pos hc, matchPlus_disjoint cc a k hk t]
      simp only [List.takeWhile_cons, hc, if_true, List.dropWhile_cons, reduceCtorEq, if_false]
      by_cases ht : t.takeWhile (a.accepts cc) = []
      · rw [if_pos ht, ht]
        have : t.dropWhile (a.accepts cc) = t := by
          cases t with
          | nil => rfl
          | cons x t =>
            by_cases hx : a.accepts cc x = true
            · simp [List.takeWhile_cons, hx] at ht
            · simp [List.dropWhile_cons, hx]
        rw [this]
      · rw [if_neg ht]
        cases hd : k (t.dropWhile (a.accepts cc)) with
        | some caps => simp
        | none =>
          simp only [Option.map_none']
          cases t with
          | nil => simp at ht
          | cons x t =>
            by_cases hx : a.accepts cc x = true
            · simp [hk x t hx]
            · simp [List.takeWhile_cons, hx] at ht
    · rw [if_neg hc]
      simp [List.takeWhile_cons, hc]

theorem takeWhile_append_stop {α : Type} (p : α → Bool) (w : α) (hw : p w = false) :
    ∀ (l rest : List α), (∀ c ∈ l, p c = true) →
      (l ++ w :: rest).takeWhile p = l ∧ (l ++ w :: rest).dropWhile p = w :: rest
  | [], rest, _ => by simp [List.takeWhile_cons, List.dropWhile_cons, hw]
  | c :: l, rest, h => by
    have hc : p c = true := h c (List.mem_cons_self _ _)
    have := takeWhile_append_stop p w hw l rest (fun x hx => h x (List.mem_cons_of_mem _ hx))
    simp [List.takeWhile_cons, List.dropWhile_cons, hc, this]

theorem takeWhile_all {α : Type} (p : α → Bool) :
    ∀ (l : List α), (∀ c ∈ l, p c = true) → l.takeWhile p = l ∧ l.dropWhile p = []
  | [], _ => by simp
  | c :: l, h => by
    have hc : p c = true := h c (List.mem_cons_self _ _)
    have := takeWhile_all p l (fun x hx => h x (List.mem_cons_of_mem _ hx))
    simp [List.takeWhile_cons, List.dropWhile_cons, hc, this]

theorem dropWhile_head {α : Type} (p : α → Bool) :
    ∀ (l : List α) (w : α) (rest : List α), l.dropWhile p = w :: rest → p w = false
  | [], w, rest, h => by simp at h
  | c :: l, w, rest, h => by
    by_cases hc : p c = true
    · simp only [List.dropWhile_cons, hc, if_true] at h
      exact dropWhile_head p l w rest h
    · simp only [List.dropWhile_cons, hc] at h
      simp only [Bool.false_eq_true, if_false, List.cons.injEq] at h
      rw [← h.1]
      simpa using hc

/-! ## The uname pattern -/

theorem unamePattern_eq : unamePattern =
    [⟨.lit 'L', false, 0⟩, ⟨.lit 'i', false, 0⟩, ⟨.lit 'n', false, 0⟩, ⟨.lit 'u', false, 0⟩,
     ⟨.lit 'x', false, 0⟩, ⟨.lit ' ', false, 0⟩, ⟨.nonSpace, true, 1⟩, ⟨.space, false, 0⟩,
     ⟨.nonSpace, true, 2⟩] := rfl

theorem matchHere_plus (cc : CharClasses) (a : Atom) (g : Nat) (rest : List Item) (s : QString) :
    matchHere cc (⟨a, true, g⟩ :: rest) s =
      (matchPlus cc a (matchHere cc rest) s).map (fun r => r.1 :: r.2) := by
  cases s <;> simp [matchHere]

theorem matchHere_one (cc : CharClasses) (a : Atom) (g : Nat) (rest : List Item) (c : Char)
    (t : QString) :
    matchHere cc (⟨a, false, g⟩ :: rest) (c :: t) =
      if a.accepts cc c then (matchHere cc rest t).map (fun caps => [c] :: caps) else none := by
  simp [matchHere]

theorem matchHere_lit (cc : CharClasses) (x : Char) (g : Nat) (rest : List Item) (s : QString)
    (texts : List QString) :
    matchHere cc (⟨.lit x, false, g⟩ :: rest) s = some texts ↔
      ∃ t caps, s = x :: t ∧ matchHere cc rest t = some caps ∧ texts = [x] :: caps := by
  cases s with
  | nil => simp [matchHere]
  | cons c t =>
    simp only [matchHere, Bool.false_eq_true, if_false, Atom.accepts, beq_iff_eq]
    by_cases hc : c = x
    · subst hc
      simp only [if_true, Option.map_eq_some', List.cons.injEq, true_and]
      constructor
      · rintro ⟨caps, h, rfl⟩
        exact ⟨t, caps, rfl, h, rfl⟩
      · rintro ⟨t2, caps, rfl, h, rfl⟩
        exact ⟨caps, h, rfl⟩
    · simp only [hc, if_false, false_iff, reduceCtorEq, not_exists, not_and]
      intro t2 caps h
      simp only [List.cons.injEq] at h
      exact absurd h.1 hc

/-- When the rest of the pattern accepts every text, `a+` takes the whole run
of characters of its class. -/
theorem matchPlus_total (cc : CharClasses) (a : Atom) (k : QString → Option (List QString))
    (x : List QString) (hk : ∀ s, k s = some x) :
    ∀ s : QString, matchPlus cc a k s =
      if s.takeWhile (a.accepts cc) = [] then none else some (s.takeWhile (a.accepts cc), x)
  | [] => by simp [matchPlus]
  | c :: t => by
    unfold matchPlus
    by_cases hc : a.accepts cc c = true
    · rw [if_pos hc, matchPlus_total cc a k x hk t]
      simp only [List.takeWhile_cons, hc, if_true, reduceCtorEq, if_false]
      by_cases ht : t.takeWhile (a.accepts cc) = []
      · simp [ht, hk]
      · simp [ht]
    · rw [if_neg hc]
      simp [List.takeWhile_cons, hc]

/-- The tail of the uname pattern after `Linux `: a run of non-spaces, one
space, a run of non-spaces. -/
theorem matchHere_uname_tail (cc : CharClasses) (r : QString) :
    matchHere cc [⟨.nonSpace, true, 1⟩, ⟨.space, false, 0⟩, ⟨.nonSpace, true, 2⟩] r =
      if r.takeWhile (Atom.nonSpace.accepts cc) = [] then none
      else match r.dropWhile (Atom.nonSpace.accepts cc) with
        | [] => none
        | w :: r2 =>
          if r2.takeWhile (Atom.nonSpace.accepts cc) = [] then none
          else some [r.takeWhile (Atom.nonSpace.accepts cc), [w],
            r2.takeWhile (Atom.nonSpace.accepts cc)] := by
  have hlast : ∀ s : QString, matchHere cc [⟨.nonSpace, true, 2⟩] s =
      if s.takeWhile (Atom.nonSpace.accepts cc) = [] then none
      else some [s.takeWhile (Atom.nonSpace.accepts cc)] := by
    intro s
    have h := matchPlus_total cc .nonSpace (fun _ => some []) [] (fun _ => rfl) s
    rw [matchHere_plus]
    have h0 : matchHere cc [] = fun _ => some [] := by
      funext x
      simp [matchHere]
    rw [h0, h]
    split <;> simp
  have hmid : ∀ (c : Char) (t : QString), Atom.nonSpace.accepts cc c = true →
      matchHere cc [⟨.space, false, 0⟩, ⟨.nonSpace, true, 2⟩] (c :: t) = none := by
    intro c t hc
    have : cc.isSpace c = false := by simpa [Atom.accepts] using hc
    simp [matchHere, Atom.accepts, this]
  have h := matchPlus_disjoint cc .nonSpace
    (matchHere cc [⟨.space, false, 0⟩, ⟨.nonSpace, true, 2⟩]) hmid r
  rw [matchHere_plus, h]
  by_cases hr : r.takeWhile (Atom.nonSpace.accepts cc) = []
  · simp [hr]
  · simp only [hr, if_false]
    cases hd : r.dropWhile (Atom.nonSpace.accepts cc) with
    | nil => simp [matchHere]
    | cons w r2 =>
      have hw : cc.isSpace w = true := by
        have := dropWhile_head _ r w r2 hd
        simpa [Atom.accepts] using this
      rw [matchHere_one]
      simp only [Atom.accepts, hw, if_true, hlast]
      split <;> simp

theorem matchHere_uname_iff (cc : CharClasses) (s : QString) (texts : List QString) :
    matchHere cc unamePattern s = some texts ↔
      ∃ r w r2, s = "Linux ".toList ++ r ∧ r.takeWhile (Atom.nonSpace.accepts cc) ≠ [] ∧
        r.dropWhile (Atom.nonSpace.accepts cc) = w :: r2 ∧
        r2.takeWhile (Atom.nonSpace.accepts cc) ≠ [] ∧
        texts = [['L'], ['i'], ['n'], ['u'], ['x'], [' '],
          r.takeWhile (Atom.nonSpace.accepts cc), [w], r2.takeWhile (Atom.nonSpace.accepts cc)] := by
  rw [unamePattern_eq]
  simp only [matchHere_lit, matchHere_uname_tail]
  constructor
  · rintro ⟨t1, c1, rfl, ⟨t2, c2, rfl, ⟨t3, c3, rfl, ⟨t4, c4, rfl, ⟨t5, c5, rfl,
      ⟨t6, c6, rfl, h, rfl⟩, rfl⟩, rfl⟩, rfl⟩, rfl⟩, rfl⟩
    split at h
    · cases h
    · next hr =>
      split at h
      · cases h
      · next w r2 hd =>
        split at h
        · cases h
        · next hr2 =>
          simp only [Option.some.injEq] at h
          subst h
          exact ⟨t6, w, r2, rfl, hr, hd, hr2, rfl⟩
  · rintro ⟨r, w, r2, rfl, hr, hd, hr2, rfl⟩
    refine ⟨_, _, rfl, ⟨_, _, rfl, ⟨_, _, rfl, ⟨_, _, rfl, ⟨_, _, rfl,
      ⟨_, _, rfl, ?_, rfl⟩, rfl⟩, rfl⟩, rfl⟩, rfl⟩, rfl⟩
    simp [hr, hd, hr2]

theorem cap_uname (k w a : QString) :
    cap unamePattern [['L'], ['i'], ['n'], ['u'], ['x'], [' '], k, w, a] 1 = k ∧
    cap unamePattern [['L'], ['i'], ['n'], ['u'], ['x'], [' '], k, w, a] 2 = a ∧
    cap unamePattern [['L'], ['i'], ['n'], ['u'], ['x'], [' '], k, w, a] 0 =
      "Linux ".toList ++ k ++ w ++ a := by
  rw [unamePattern_eq]
  simp [cap, List.zip, List.zipWith, List.filter]

/-! ## Matches are texts of the subject -/

theorem matchHere_flatten (cc : CharClasses) :
    ∀ (items : List Item) (s : QString) (texts : List QString),
      matchHere cc items s = some texts → ∃ rest, s = texts.flatten ++ rest
  | [], s, texts, h => by
    simp only [matchHere, Option.some.injEq] at h
    subst h
    exact ⟨s, rfl⟩
  | ⟨a, true, g⟩ :: rest, s, texts, h => by
    rw [matchHere_plus] at h
    simp only [Option.map_eq_some', Prod.exists] at h
    obtain ⟨m, caps, hm, rfl⟩ := h
    obtain ⟨s2, rfl, -, -, hk⟩ := matchPlus_sound cc a _ s m caps hm
    obtain ⟨r, rfl⟩ := matchHere_flatten cc rest s2 caps hk
    exact ⟨r, by simp⟩
  | ⟨a, false, g⟩ :: rest, [], texts, h => by
    simp [matchHere] at h
  | ⟨a, false, g⟩ :: rest, c :: t, texts, h => by
    rw [matchHere_one] at h
    split at h
    · simp only [Option.map_eq_some'] at h
      obtain ⟨caps, hk, rfl⟩ := h
      obtain ⟨r, rfl⟩ := matchHere_flatten cc rest t caps hk
      exact ⟨r, by simp⟩
    · cases h

/-- The whole match at position `p` is the text of the subject from `p` on. -/
theorem matchAt_cap_zero (cc : CharClasses) (items : List Item) (str : QString) (p : Nat)
    (texts : List QString) (h : matchAt cc items str p = some texts) :
    ∃ rest, str.drop p = cap items texts 0 ++ rest := by
  unfold matchAt at h
  split at h
  · simpa [cap] using matchHere_flatten cc items _ texts h
  · cases h

/-! ## The tokens of a uname match -/

theorem uname_tokens (cc : CharClasses) (s : QString) (texts : List QString)
    (h : matchHere cc unamePattern s = some texts) :
    ∃ (k a post : QString) (w : Char),
      s = "Linux ".toList ++ k ++ w :: a ++ post ∧ k ≠ [] ∧ a ≠ [] ∧
      (∀ c ∈ k, cc.isSpace c = false) ∧ (∀ c ∈ a, cc.isSpace c = false) ∧
      cc.isSpace w = true ∧ (∀ c ∈ post.head?, cc.isSpace c = true) ∧
      cap unamePattern texts 1 = k ∧ cap unamePattern texts 2 = a := by
  rw [matchHere_uname_iff] at h
  obtain ⟨r, w, r2, rfl, hr, hd, hr2, rfl⟩ := h
  have hcap := cap_uname (r.takeWhile (Atom.nonSpace.accepts cc)) [w]
    (r2.takeWhile (Atom.nonSpace.accepts cc))
  refine ⟨r.takeWhile (Atom.nonSpace.accepts cc), r2.takeWhile (Atom.nonSpace.accepts cc),
    r2.dropWhile (Atom.nonSpace.accepts cc), w, ?_, hr, hr2, ?_, ?_, ?_, ?_, hcap.1, hcap.2.1⟩
  · have h1 := List.takeWhile_append_dropWhile (Atom.nonSpace.accepts cc) r
    have h2 := List.takeWhile_append_dropWhile (Atom.nonSpace.accepts cc) r2
    rw [hd] at h1
    conv_lhs => rw [← h1, ← h2]
    simp
  · intro c hc
    simpa [Atom.accepts] using List.mem_takeWhile_imp hc
  · intro c hc
    simpa [Atom.accepts] using List.mem_takeWhile_imp hc
  · simpa [Atom.accepts] using dropWhile_head _ r w r2 hd
  · intro c hc
    cases hp : r2.dropWhile (Atom.nonSpace.accepts cc) with
    | nil => simp [hp] at hc
    | cons x rest =>
      simp only [hp, List.head?_cons, Option.mem_def, Option.some.injEq] at hc
      subst hc
      simpa [Atom.accepts] using dropWhile_head _ r2 x rest hp

theorem uname_of_tokens (cc : CharClasses) (k a post : QString) (w : Char)
    (hk : k ≠ []) (ha : a ≠ []) (hks : ∀ c ∈ k, cc.isSpace c = false)
    (has : ∀ c ∈ a, cc.isSpace c = false) (hw : cc.isSpace w = true)
    (hpost : ∀ c ∈ post.head?, cc.isSpace c = true) :
    matchHere cc unamePattern ("Linux ".toList ++ k ++ w :: a ++ post) =
      some [['L'], ['i'], ['n'], ['u'], ['x'], [' '], k, [w], a] := by
  rw [matchHere_uname_iff]
  have hw2 : Atom.nonSpace.accepts cc w = false := by simp [Atom.accepts, hw]
  have hk2 : ∀ c ∈ k, Atom.nonSpace.accepts cc c = true := by
    intro c hc
    simp [Atom.accepts, hks c hc]
  have ha2 : ∀ c ∈ a, Atom.nonSpace.accepts cc c = true := by
    intro c hc
    simp [Atom.accepts, has c hc]
  have h1 := takeWhile_append_stop (Atom.nonSpace.accepts cc) w hw2 k (a ++ post) hk2
  have h2 : (a ++ post).takeWhile (Atom.nonSpace.accepts cc) = a := by
    cases post with
    | nil => simpa using (takeWhile_all _ a ha2).1
    | cons x rest =>
      have hx : Atom.nonSpace.accepts cc x = false := by
        simp [Atom.accepts, hpost x (by simp)]
      exact (takeWhile_append_stop _ x hx a rest ha2).1
  refine ⟨k ++ w :: (a ++ post), w, a ++ post, by simp, ?_, h1.2, ?_, ?_⟩
  · rw [h1.1]
    exact hk
  · rw [h2]
    exact ha
  · rw [h1.1, h2]

theorem uname_contains_linux (cc : CharClasses) (text : QString) (p : Nat) (texts : List QString)
    (h : matchAt cc unamePattern text p = some texts) : "Linux ".toList <:+: text := by
  unfold matchAt at h
  split at h
  · obtain ⟨k, a, post, w, hs, -⟩ := uname_tokens cc _ texts h
    refine ⟨text.take p, k ++ w :: a ++ post, ?_⟩
    have := List.take_append_drop p text
    rw [hs] at this
    conv_rhs => rw [← this]
    simp
  · cases h

/-! ## Lists sorted by position -/

theorem sorted_pair_eq {β : Type} (l : List (Nat × β)) (x y : Nat × β)
    (hs : l.Pairwise (fun a b => a.1 < b.1)) (hxy : x.1 < y.1)
    (hmem : ∀ z, z ∈ l ↔ z = x ∨ z = y) : l = [x, y] := by
  match l, hs, hmem with
  | [], _, hmem => exact absurd ((hmem x).2 (Or.inl rfl)) (by simp)
  | [a], _, hmem =>
    have hx := (hmem x).2 (Or.inl rfl)
    have hy := (hmem y).2 (Or.inr rfl)
    simp only [List.mem_singleton] at hx hy
    subst hx
    subst hy
    omega
  | a :: b :: t, hs, hmem =>
    simp only [List.pairwise_cons, List.mem_cons] at hs
    obtain ⟨ha, hb, ht⟩ := hs
    have hab : a.1 < b.1 := ha b (Or.inl rfl)
    have hamem := (hmem a).1 (by simp)
    have hbmem := (hmem b).1 (by simp)
    have hax : a = x := by
      rcases hamem with h | h
      · exact h
      · rcases hbmem with h2 | h2
        · subst h
          subst h2
          omega
        · subst h
          subst h2
          omega
    have hby : b = y := by
      rcases hbmem with h | h
      · subst hax
        subst h
        omega
      · exact h
    subst hax
    subst hby
    cases t with
    | nil => rfl
    | cons c t =>
      have hc := (hmem c).1 (by simp)
      have h1 : a.1 < c.1 := ha c (by simp)
      have h2 : b.1 < c.1 := hb c (by simp)
      rcases hc with h | h
      · subst h
        omega
      · subst h
        omega

/-! ## The parser: claims -/

/-- C1: when the uname pattern matches at no position of the raw text, and in
particular when the raw text does not contain `Linux `, the parser returns the
failure header followed by the raw text, unchanged. -/
theorem parseTestOutput_unexpected_output (cc : CharClasses) (text : QString)
    (h : (∀ p, matchAt cc unamePattern text p = none) ∨ ¬ "Linux ".toList <:+: text) :
    parseTestOutput cc text =
      some ("Device configuration test failed: Unexpected output:\n".toList ++ text) := by
  have hno : ∀ p, matchAt cc unamePattern text p = none := by
    rcases h with h | h
    · exact h
    · intro p
      cases hm : matchAt cc unamePattern text p with
      | none => rfl
      | some texts => exact absurd (uname_contains_linux cc text p texts hm) h
  have hidx : indexIn cc unamePattern text 0 = none :=
    (indexIn_eq_none cc unamePattern text 0 (Nat.zero_le _)).2 (fun p _ => hno p)
  rw [parseTestOutput_eq, hidx]
  rfl

/-- Witness of C1: the text `Linux 2.6.28` followed by a line feed contains the
word but no second token, so the pattern does not match, and the report is the
failure header followed by the text. -/
theorem parseTestOutput_unexpected_output_witness :
    parseTestOutput asciiClasses "Linux 2.6.28\n".toList =
      some "Device configuration test failed: Unexpected output:\nLinux 2.6.28\n".toList :=
  parseTestOutput_unexpected_output asciiClasses "Linux 2.6.28\n".toList
    (Or.inl (fun p => (indexIn_eq_none asciiClasses unamePattern "Linux 2.6.28\n".toList 0
      (Nat.zero_le _)).1 (by decide) p (Nat.zero_le p)))

/-- C2: when the uname pattern matches somewhere in the raw text, the text
reads `pre ++ "Linux " ++ k ++ w :: a ++ post` at the leftmost match, where the
kernel `k` and the architecture `a` are non-empty runs of non-space characters,
`w` is a space and `post` is empty or starts with a space; the report is the
success header with the architecture line before the kernel line, followed by
either `No Qt packages installed.` or the header of the package list and at
least one package line. -/
theorem parseTestOutput_success (cc : CharClasses) (text : QString)
    (h : ∃ p, (matchAt cc unamePattern text p).isSome = true) :
    ∃ (pre k a post : QString) (w : Char) (tail : QString),
      text = pre ++ "Linux ".toList ++ k ++ w :: a ++ post ∧
      (∀ p, p < pre.length → matchAt cc unamePattern text p = none) ∧
      k ≠ [] ∧ a ≠ [] ∧
      (∀ c ∈ k, cc.isSpace c = false) ∧ (∀ c ∈ a, cc.isSpace c = false) ∧
      cc.isSpace w = true ∧ (∀ c ∈ post.head?, cc.isSpace c = true) ∧
      parseTestOutput cc text =
        some ("Device configuration successful.\nHardware architecture: ".toList ++ a ++
          "\nKernel version: ".toList ++ k ++ "\n".toList ++ tail) ∧
      (tail = "No Qt packages installed.".toList ∨
        ∃ ds : List QString, ds ≠ [] ∧
          tail = "List of installed Qt packages:\n".toList ++
            (ds.map (fun d => ['\t'] ++ d ++ ['\n'])).flatten) := by
  obtain ⟨p0, hp0⟩ := h
  cases hidx : indexIn cc unamePattern text 0 with
  | none =>
    have := (indexIn_eq_none cc unamePattern text 0 (Nat.zero_le _)).1 hidx p0 (Nat.zero_le _)
    simp [this] at hp0
  | some r =>
    obtain ⟨i, um⟩ := r
    obtain ⟨-, hm, hleft⟩ := (indexIn_eq_some cc unamePattern text 0 i um).1 hidx
    have hm2 := hm
    unfold matchAt at hm2
    split at hm2
    · next hi =>
      obtain ⟨k, a, post, w, hs, hk, ha, hks, has, hw, hpost, hc1, hc2⟩ :=
        uname_tokens cc _ um hm2
      have htext : text = text.take i ++ "Linux ".toList ++ k ++ w :: a ++ post := by
        have := List.take_append_drop i text
        rw [hs] at this
        conv_lhs => rw [← this]
        simp
      have hlen : (text.take i).length = i := by simp [hi]
      refine ⟨text.take i, k, a, post, w,
        (if allMatches cc dkpgPattern text 0 = [] then "No Qt packages installed.".toList
         else "List of installed Qt packages:\n".toList ++
           packageLines ((allMatches cc dkpgPattern text 0).map
             (fun p => cap dkpgPattern p.2 0))),
        htext, ?_, hk, ha, hks, has, hw, hpost, ?_, ?_⟩
      · intro p hp
        exact hleft p (Nat.zero_le _) (by omega)
      · rw [parseTestOutput_eq, hidx]
        simp only [hc1, hc2, successHeader, List.append_assoc]
      · by_cases hall : allMatches cc dkpgPattern text 0 = []
        · exact Or.inl (by simp [hall])
        · refine Or.inr ⟨(allMatches cc dkpgPattern text 0).map (fun p => cap dkpgPattern p.2 0),
            by simpa using hall, ?_⟩
          rw [if_neg hall]
          rfl
    · cases hm2

/-- Witness of C2: in `up 3 days Linux 2.6.28-omap1 armv7l GNU`, followed by a
line feed, the pattern matches, so the report is a success report. -/
theorem parseTestOutput_success_witness :
    ∃ (pre k a post : QString) (w : Char) (tail : QString),
      "up 3 days Linux 2.6.28-omap1 armv7l GNU\n".toList =
        pre ++ "Linux ".toList ++ k ++ w :: a ++ post ∧
      (∀ p, p < pre.length →
        matchAt asciiClasses unamePattern "up 3 days Linux 2.6.28-omap1 armv7l GNU\n".toList p
          = none) ∧
      k ≠ [] ∧ a ≠ [] ∧
      (∀ c ∈ k, asciiClasses.isSpace c = false) ∧ (∀ c ∈ a, asciiClasses.isSpace c = false) ∧
      asciiClasses.isSpace w = true ∧ (∀ c ∈ post.head?, asciiClasses.isSpace c = true) ∧
      parseTestOutput asciiClasses "up 3 days Linux 2.6.28-omap1 armv7l GNU\n".toList =
        some ("Device configuration successful.\nHardware architecture: ".toList ++ a ++
          "\nKernel version: ".toList ++ k ++ "\n".toList ++ tail) ∧
      (tail = "No Qt packages installed.".toList ∨
        ∃ ds : List QString, ds ≠ [] ∧
          tail = "List of installed Qt packages:\n".toList ++
            (ds.map (fun d => ['\t'] ++ d ++ ['\n'])).flatten) :=
  parseTestOutput_success asciiClasses "up 3 days Linux 2.6.28-omap1 armv7l GNU\n".toList
    ⟨10, by decide⟩

/-- C3, counterexample: the text `Linux a b Linux 5.4.0 x86_64` contains
`Linux 5.4.0 x86_64` and no match of the package pattern, yet the report names
the kernel `a` and the architecture `b` of the leftmost match; and in
`Linux 5.4.0 x86_64-v2` the architecture token runs on to `x86_64-v2`. -/
theorem parseTestOutput_linux_540_counterexample :
    ("Linux 5.4.0 x86_64".toList <:+: "Linux a b Linux 5.4.0 x86_64".toList ∧
      allMatches asciiClasses dkpgPattern "Linux a b Linux 5.4.0 x86_64".toList 0 = [] ∧
      parseTestOutput asciiClasses "Linux a b Linux 5.4.0 x86_64".toList =
        some ("Device configuration successful.\nHardware architecture: b\n" ++
          "Kernel version: a\nNo Qt packages installed.").toList) ∧
    ("Linux 5.4.0 x86_64".toList <:+: "Linux 5.4.0 x86_64-v2".toList ∧
      allMatches asciiClasses dkpgPattern "Linux 5.4.0 x86_64-v2".toList 0 = [] ∧
      parseTestOutput asciiClasses "Linux 5.4.0 x86_64-v2".toList =
        some ("Device configuration successful.\nHardware architecture: x86_64-v2\n" ++
          "Kernel version: 5.4.0\nNo Qt packages installed.").toList) ∧
    ¬ (∀ text : QString, "Linux 5.4.0 x86_64".toList <:+: text →
        (∀ p, matchAt asciiClasses dkpgPattern text p = none) →
        parseTestOutput asciiClasses text =
          some ("Device configuration successful.\nHardware architecture: x86_64\n" ++
            "Kernel version: 5.4.0\nNo Qt packages installed.").toList) := by
  refine ⟨⟨by decide, by decide, by decide⟩, ⟨by decide, by decide, by decide⟩, ?_⟩
  intro h
  have hno : ∀ p, matchAt asciiClasses dkpgPattern "Linux a b Linux 5.4.0 x86_64".toList p
      = none := fun p =>
    (indexIn_eq_none asciiClasses dkpgPattern _ 0 (Nat.zero_le _)).1 (by decide) p (Nat.zero_le p)
  have := h "Linux a b Linux 5.4.0 x86_64".toList (by decide) hno
  revert this
  decide

/-- C3, amended: when the leftmost match of the uname pattern is at an
occurrence of `Linux 5.4.0 x86_64` that ends the text or is followed by a
space, and the package pattern matches nowhere, the report is the success
header with architecture `x86_64` and kernel `5.4.0` followed by
`No Qt packages installed.` (for character classes in which the blank is a
space and the characters of the two tokens are not). -/
theorem parseTestOutput_linux_540 (cc : CharClasses) (pre post : QString)
    (hsp : cc.isSpace ' ' = true)
    (hns : ∀ c ∈ "5.4.0x86_64".toList, cc.isSpace c = false)
    (hleft : ∀ p, p < pre.length →
      matchAt cc unamePattern (pre ++ "Linux 5.4.0 x86_64".toList ++ post) p = none)
    (hpost : ∀ c ∈ post.head?, cc.isSpace c = true)
    (hpkg : ∀ p, matchAt cc dkpgPattern (pre ++ "Linux 5.4.0 x86_64".toList ++ post) p = none) :
    parseTestOutput cc (pre ++ "Linux 5.4.0 x86_64".toList ++ post) =
      some ("Device configuration successful.\nHardware architecture: x86_64\n" ++
        "Kernel version: 5.4.0\nNo Qt packages installed.").toList := by
  have hm := uname_of_tokens cc "5.4.0".toList "x86_64".toList post ' ' (by decide) (by decide)
    (fun c hc => hns c (by revert c; decide)) (fun c hc => hns c (by revert c; decide))
    hsp hpost
  have hat : matchAt cc unamePattern (pre ++ "Linux 5.4.0 x86_64".toList ++ post) pre.length =
      some [['L'], ['i'], ['n'], ['u'], ['x'], [' '], "5.4.0".toList, [' '], "x86_64".toList] := by
    unfold matchAt
    rw [if_pos (by simp), List.append_assoc, List.drop_left]
    exact hm
  have hidx := (indexIn_eq_some cc unamePattern _ 0 pre.length _).2
    ⟨Nat.zero_le _, hat, fun p _ hp => hleft p hp⟩
  have hall : allMatches cc dkpgPattern (pre ++ "Linux 5.4.0 x86_64".toList ++ post) 0 = [] := by
    rw [List.eq_nil_iff_forall_not_mem]
    rintro ⟨j, m⟩ hmem
    rw [mem_allMatches_zero, hpkg j] at hmem
    cases hmem
  have hcap := cap_uname "5.4.0".toList [' '] "x86_64".toList
  rw [parseTestOutput_eq, hidx]
  simp only [hall, if_true, hcap.1, hcap.2.1]
  rfl

/-- Witness of the amended C3: the output of `uname -rsm` alone, with the ASCII
character classes. -/
theorem parseTestOutput_linux_540_witness :
    parseTestOutput asciiClasses ("$ ".toList ++ "Linux 5.4.0 x86_64".toList ++ "\n".toList) =
      some ("Device configuration successful.\nHardware architecture: x86_64\n" ++
        "Kernel version: 5.4.0\nNo Qt packages installed.").toList :=
  parseTestOutput_linux_540 asciiClasses "$ ".toList "\n".toList (by decide) (by decide)
    (by decide) (by decide)
    (fun p => (indexIn_eq_none asciiClasses dkpgPattern _ 0 (Nat.zero_le _)).1 (by decide) p
      (Nat.zero_le p))

/-- C4: when the uname pattern matches and the package pattern matches at
exactly two positions `p1 < p2`, the match at `p1` ending at or before `p2`,
the report is the success header followed by
`List of installed Qt packages:`, a tab, the first match, a line feed, a tab,
the second match and a line feed, and nothing else. -/
theorem parseTestOutput_two_packages (cc : CharClasses) (text : QString) (i p1 p2 : Nat)
    (um t1 t2 : List QString)
    (hu : indexIn cc unamePattern text 0 = some (i, um))
    (h1 : matchAt cc dkpgPattern text p1 = some t1)
    (h2 : matchAt cc dkpgPattern text p2 = some t2)
    (hlt : p1 < p2) (_hno : p1 + (cap dkpgPattern t1 0).length ≤ p2)
    (hall : ∀ p, matchAt cc dkpgPattern text p ≠ none → p = p1 ∨ p = p2) :
    parseTestOutput cc text =
      some ("Device configuration successful.\nHardware architecture: ".toList ++
        cap unamePattern um 2 ++ "\nKernel version: ".toList ++ cap unamePattern um 1 ++
        "\n".toList ++ "List of installed Qt packages:\n\t".toList ++ cap dkpgPattern t1 0 ++
        "\n\t".toList ++ cap dkpgPattern t2 0 ++ "\n".toList) := by
  have hlist : allMatches cc dkpgPattern text 0 = [(p1, t1), (p2, t2)] := by
    apply sorted_pair_eq _ _ _ (allMatches_sorted cc dkpgPattern text 0) hlt
    rintro ⟨j, m⟩
    rw [mem_allMatches_zero]
    constructor
    · intro hm
      rcases hall j (by simp [hm]) with rfl | rfl
      · rw [h1] at hm
        simp only [Option.some.injEq] at hm
        exact Or.inl (by rw [hm])
      · rw [h2] at hm
        simp only [Option.some.injEq] at hm
        exact Or.inr (by rw [hm])
    · rintro (h | h)
      · simp only [Prod.mk.injEq] at h
        rw [h.1, h.2]
        exact h1
      · simp only [Prod.mk.injEq] at h
        rw [h.1, h.2]
        exact h2
  rw [parseTestOutput_eq, hu]
  simp [hlist, successHeader, packageLines, packageLine]

/-- Witness of C4: two package lines after the uname line. -/
theorem parseTestOutput_two_packages_witness :
    parseTestOutput asciiClasses
        "Linux 2.6.28 armv7l\nlibqt4-core 4.6.2\nlibqt4-gui 4.6.2\n".toList =
      some ("Device configuration successful.\nHardware architecture: armv7l\n" ++
        "Kernel version: 2.6.28\nList of installed Qt packages:\n" ++
        "\tlibqt4-core 4.6.2\n\tlibqt4-gui 4.6.2\n").toList :=
  parseTestOutput_two_packages asciiClasses
    "Linux 2.6.28 armv7l\nlibqt4-core 4.6.2\nlibqt4-gui 4.6.2\n".toList 0 20 38
    [['L'], ['i'], ['n'], ['u'], ['x'], [' '], "2.6.28".toList, [' '], "armv7l".toList]
    [['l'], ['i'], ['b'], ['q'], ['t'], "4-core".toList, [' '], ['4'], ['.'], ['6'], ['.'], ['2']]
    [['l'], ['i'], ['b'], ['q'], ['t'], "4-gui".toList, [' '], ['4'], ['.'], ['6'], ['.'], ['2']]
    (by decide) (by decide) (by decide) (by decide) (by decide)
    (fun p hp => by
      have hmem : ∃ m, (p, m) ∈ allMatches asciiClasses dkpgPattern
          "Linux 2.6.28 armv7l\nlibqt4-core 4.6.2\nlibqt4-gui 4.6.2\n".toList 0 := by
        cases hm : matchAt asciiClasses dkpgPattern
            "Linux 2.6.28 armv7l\nlibqt4-core 4.6.2\nlibqt4-gui 4.6.2\n".toList p with
        | none => exact absurd hm hp
        | some m => exact ⟨m, (mem_allMatches_zero _ _ _ _ _).2 hm⟩
      obtain ⟨m, hm⟩ := hmem
      have hl : allMatches asciiClasses dkpgPattern
          "Linux 2.6.28 armv7l\nlibqt4-core 4.6.2\nlibqt4-gui 4.6.2\n".toList 0 =
          [(20, [['l'], ['i'], ['b'], ['q'], ['t'], "4-core".toList, [' '], ['4'], ['.'], ['6'],
              ['.'], ['2']]),
           (38, [['l'], ['i'], ['b'], ['q'], ['t'], "4-gui".toList, [' '], ['4'], ['.'], ['6'],
              ['.'], ['2']])] := by decide
      rw [hl] at hm
      simp only [List.mem_cons, Prod.mk.injEq, List.not_mem_nil, or_false] at hm
      rcases hm with h | h
      · exact Or.inl h.1
      · exact Or.inr h.1)

/-- C5: after a uname match, the package scan ends and the report lists the
whole match of the package pattern at every position at which it matches, each
position once, in increasing order of position (`No Qt packages installed.`
when there is none).  Since the search resumes one character after the start
of the previous match, listed descriptors can overlap: in
`libqtlibqt4 4.6.0` the pattern matches at the start and again five characters
later, inside the first match, and both are listed, whereas a scan that resumes
at the end of the previous match lists the first only. -/
theorem pkgScan_lists_every_match :
    (∀ (cc : CharClasses) (text : QString) (i : Nat) (um : List QString),
      indexIn cc unamePattern text 0 = some (i, um) →
      ∃ ms : List (Nat × List QString),
        ms.Pairwise (fun a b => a.1 < b.1) ∧
        (∀ p m, (p, m) ∈ ms ↔ matchAt cc dkpgPattern text p = some m) ∧
        parseTestOutput cc text =
          some ("Device configuration successful.\nHardware architecture: ".toList ++
            cap unamePattern um 2 ++ "\nKernel version: ".toList ++ cap unamePattern um 1 ++
            "\n".toList ++
            (if ms = [] then "No Qt packages installed.".toList
             else "List of installed Qt packages:\n".toList ++
               (ms.map (fun e => ['\t'] ++ cap dkpgPattern e.2 0 ++ ['\n'])).flatten))) ∧
    ((matchAt asciiClasses dkpgPattern "Linux 2.6.28 armv7l\nlibqtlibqt4 4.6.0\n".toList 20).map
        (fun m => cap dkpgPattern m 0) = some "libqtlibqt4 4.6.0".toList ∧
      (matchAt asciiClasses dkpgPattern "Linux 2.6.28 armv7l\nlibqtlibqt4 4.6.0\n".toList 25).map
        (fun m => cap dkpgPattern m 0) = some "libqt4 4.6.0".toList ∧
      25 < 20 + "libqtlibqt4 4.6.0".toList.length ∧
      parseTestOutput asciiClasses "Linux 2.6.28 armv7l\nlibqtlibqt4 4.6.0\n".toList =
        some ("Device configuration successful.\nHardware architecture: armv7l\n" ++
          "Kernel version: 2.6.28\nList of installed Qt packages:\n" ++
          "\tlibqtlibqt4 4.6.0\n\tlibqt4 4.6.0\n").toList ∧
      parseTestOutputFromEnd asciiClasses "Linux 2.6.28 armv7l\nlibqtlibqt4 4.6.0\n".toList =
        some ("Device configuration successful.\nHardware architecture: armv7l\n" ++
          "Kernel version: 2.6.28\nList of installed Qt packages:\n" ++
          "\tlibqtlibqt4 4.6.0\n").toList ∧
      parseTestOutput asciiClasses "Linux 2.6.28 armv7l\nlibqtlibqt4 4.6.0\n".toList ≠
        parseTestOutputFromEnd asciiClasses "Linux 2.6.28 armv7l\nlibqtlibqt4 4.6.0\n".toList) := by
  refine ⟨?_, by decide, by decide, by decide, by decide, by decide, by decide⟩
  intro cc text i um hu
  refine ⟨allMatches cc dkpgPattern text 0, allMatches_sorted cc dkpgPattern text 0,
    fun p m => mem_allMatches_zero cc dkpgPattern text p m, ?_⟩
  rw [parseTestOutput_eq, hu]
  simp only [successHeader, List.append_assoc, packageLines, List.map_map]
  rfl

/-- Witness of C5: the scan of a text with three matches, two of them
overlapping. -/
theorem pkgScan_lists_every_match_witness :
    ∃ ms : List (Nat × List QString),
      ms.Pairwise (fun a b => a.1 < b.1) ∧
      (∀ p m, (p, m) ∈ ms ↔ matchAt asciiClasses dkpgPattern
        "Linux 2.6.28 armv7l\nlibqt4-core 4.6.2\nlibqtlibqt4 4.6.0\n".toList p = some m) ∧
      parseTestOutput asciiClasses
          "Linux 2.6.28 armv7l\nlibqt4-core 4.6.2\nlibqtlibqt4 4.6.0\n".toList =
        some ("Device configuration successful.\nHardware architecture: ".toList ++
          cap unamePattern
            [['L'], ['i'], ['n'], ['u'], ['x'], [' '], "2.6.28".toList, [' '], "armv7l".toList] 2 ++
          "\nKernel version: ".toList ++
          cap unamePattern
            [['L'], ['i'], ['n'], ['u'], ['x'], [' '], "2.6.28".toList, [' '], "armv7l".toList] 1 ++
          "\n".toList ++
          (if ms = [] then "No Qt packages installed.".toList
           else "List of installed Qt packages:\n".toList ++
             (ms.map (fun e => ['\t'] ++ cap dkpgPattern e.2 0 ++ ['\n'])).flatten)) :=
  pkgScan_lists_every_match.1 asciiClasses
    "Linux 2.6.28 armv7l\nlibqt4-core 4.6.2\nlibqtlibqt4 4.6.0\n".toList 0
    [['L'], ['i'], ['n'], ['u'], ['x'], [' '], "2.6.28".toList, [' '], "armv7l".toList]
    (by decide)

/-! ## The widget: lemmas -/

theorem parseTestOutput_isSome (cc : CharClasses) (text : QString) :
    ∃ report, parseTestOutput cc text = some report :=
  ⟨_, parseTestOutput_eq cc text⟩

theorem processSshOutput_foldl (chunks : List QString) :
    ∀ s : MaemoSettingsWidget, chunks.foldl processSshOutput s =
      { s with m_deviceTestOutput := s.m_deviceTestOutput ++ chunks.flatten } := by
  induction chunks with
  | nil => intro s; simp
  | cons c cs ih =>
    intro s
    rw [List.foldl_cons, ih]
    simp [processSshOutput]

theorem stopConfigTest_none (s : MaemoSettingsWidget) (h : s.m_deviceTester = none) :
    stopConfigTest s = .ok s := by
  unfold stopConfigTest
  rw [h]

theorem stopConfigTest_some (s : MaemoSettingsWidget) (r : MaemoSshRunner)
    (h : s.m_deviceTester = some r) :
    stopConfigTest s =
      match r.m_connection with
      | none => .error .nullConnection
      | some _ =>
        .ok { s with
          m_deviceTester := none
          liveRunners := s.liveRunners - 1
          m_deviceTestOutput := []
          m_ui := { s.m_ui with
            testConfigButton :=
              { text := tr "Test", clicked := [.testConfig],
                enabled := s.m_ui.testConfigButton.enabled } } } := by
  unfold stopConfigTest
  rw [h]
  simp only [MaemoSshThread.stop]
  cases r.m_connection <;> rfl

theorem stopConfigTest_ok (s t : MaemoSettingsWidget) (h : stopConfigTest s = .ok t) :
    t.m_deviceTester = none ∧
    (s.m_deviceTester = none → t = s) ∧
    (s.m_deviceTester ≠ none → t.m_deviceTestOutput = [] ∧ t.liveRunners = s.liveRunners - 1) ∧
    (s.m_deviceTester = none → t.liveRunners = s.liveRunners) := by
  cases ht : s.m_deviceTester with
  | none =>
    rw [stopConfigTest_none s ht] at h
    cases h
    simp [ht]
  | some r =>
    rw [stopConfigTest_some s r ht] at h
    cases hc : r.m_connection with
    | none => simp [hc] at h
    | some c =>
      simp only [hc] at h
      cases h
      simp

theorem reachable_selectedWidget (cc : CharClasses) : Reachable cc selectedWidget :=
  Reachable.step sampleWidget selectedWidget (Reachable.init sampleUi [sampleConfig] 0 0)
    (Step.selectionChanged sampleWidget selectedWidget (some 0) rfl)

theorem reachable_testingWidget (cc : CharClasses) : Reachable cc (testingWidget sampleRunner) :=
  Reachable.step selectedWidget _ (reachable_selectedWidget cc)
    (Step.testConfig selectedWidget _ rfl)

theorem reachable_failedWidget (cc : CharClasses) : Reachable cc (testingWidget failedRunner) :=
  Reachable.step _ _ (reachable_testingWidget cc)
    (Step.runFailed (testingWidget sampleRunner) sampleRunner "Could not connect to host.".toList
      rfl)

theorem reachable_connectedWidget (cc : CharClasses) :
    Reachable cc (testingWidget connectedRunner) :=
  Reachable.step _ _ (reachable_testingWidget cc)
    (Step.runConnected (testingWidget sampleRunner) sampleRunner { stopped := false } rfl)

/-- In a reachable state the number of live runners is one when a tester is
active and zero otherwise. -/
theorem liveRunners_eq (cc : CharClasses) (s : MaemoSettingsWidget) (h : Reachable cc s) :
    s.liveRunners = if s.m_deviceTester = none then 0 else 1 := by
  induction h with
  | init ui devConfs p t => simp [initialWidget]
  | step s t _ hstep ih =>
    cases hstep with
    | testConfig _ h =>
      unfold testConfig at h
      cases ht : s.m_deviceTester with
      | some r =>
        simp only [ht] at h
        cases h
        exact ih
      | none =>
        simp only [ht] at h
        split at h
        · cases h
        · cases h
          simp [ih, ht]
    | enableTestStop => simpa [enableTestStop] using ih
    | processSshOutput data => simpa [processSshOutput] using ih
    | handleSshFinished _ h =>
      unfold handleSshFinished at h
      cases ht : s.m_deviceTester with
      | none =>
        simp only [ht] at h
        cases h
        exact ih
      | some r =>
        simp only [ht] at h
        split at h
        · cases h
        · obtain ⟨h1, -, h3, -⟩ := stopConfigTest_ok _ _ h
          have := (h3 (by simp [ht])).2
          simp only at this
          rw [h1, this, ih]
          simp [ht]
    | stopConfigTest _ h =>
      obtain ⟨h1, h2, h3, h4⟩ := stopConfigTest_ok _ _ h
      cases ht : s.m_deviceTester with
      | none =>
        rw [h2 ht]
        exact ih
      | some r =>
        rw [h1, (h3 (by simp [ht])).2, ih]
        simp [ht]
    | selectionChanged _ row h =>
      unfold selectionChanged at h
      split at h
      · cases h
      · next u hu =>
        obtain ⟨h1, h2, h3, h4⟩ := stopConfigTest_ok _ _ hu
        have hl : u.liveRunners = 0 := by
          cases ht : s.m_deviceTester with
          | none =>
            have := h4 (by simpa using ht)
            simp only at this
            rw [this, ih]
            simp [ht]
          | some r =>
            have := (h3 (by simp [ht])).2
            simp only at this
            rw [this, ih]
            simp [ht]
        simp only at h
        split at h
        · cases h
          simp [clearDetails, h1, hl]
        · split at h
          · cases h
          · cases h
            simp [display, h1, hl]
    | edit _ h1 h2 _ _ =>
      rw [h1, h2]
      exact ih
    | runConnected r c ht => simpa [ht] using ih
    | runFailed r e ht => simpa [ht] using ih

/-- With a transport error and an established connection, `handleSshFinished`
shows the error text, whatever the buffer holds, and leaves no tester and an
empty buffer. -/
theorem handleSshFinished_transport_error (cc : CharClasses) (s : MaemoSettingsWidget)
    (r : MaemoSshRunner) (c : MaemoSshConnection) (ht : s.m_deviceTester = some r)
    (he : r.hasError = true) (hc : r.m_connection = some c) :
    ∃ t, handleSshFinished cc s = .ok t ∧
      t.m_ui.testResultEdit = "Device configuration test failed:\n".toList ++ r.m_error ∧
      t.m_deviceTester = none ∧ t.m_deviceTestOutput = [] := by
  unfold handleSshFinished
  rw [ht]
  simp only [finishedOutput, he, if_true]
  rw [stopConfigTest_some _ r rfl, hc]
  exact ⟨_, rfl, rfl, rfl, rfl⟩

/-- With a null connection an active tester cannot be stopped. -/
theorem stopConfigTest_null_connection (s : MaemoSettingsWidget) (r : MaemoSshRunner)
    (ht : s.m_deviceTester = some r) (hc : r.m_connection = none) :
    stopConfigTest s = .error .nullConnection := by
  rw [stopConfigTest_some s r ht, hc]

/-! ## The widget: claims -/

/-- C6: from an empty buffer, delivering the chunks through `processSshOutput`
leaves the buffer equal to their concatenation in arrival order; without a
transport error the text `handleSshFinished` computes is the report of the
parser on that concatenation, and it is the text shown when the slot returns
(the runner has a connection); chunk sequences with the same concatenation
lead to the same state and so to the same result of `handleSshFinished`. -/
theorem chunk_boundary_independence (cc : CharClasses) (s : MaemoSettingsWidget)
    (r : MaemoSshRunner) (chunks : List QString)
    (hbuf : s.m_deviceTestOutput = []) (ht : s.m_deviceTester = some r)
    (hne : r.hasError = false) :
    (chunks.foldl processSshOutput s).m_deviceTestOutput = chunks.flatten ∧
    (∃ report, parseTestOutput cc chunks.flatten = some report ∧
      finishedOutput cc (chunks.foldl processSshOutput s) r = some report ∧
      ∀ c, r.m_connection = some c →
        ∃ t, handleSshFinished cc (chunks.foldl processSshOutput s) = .ok t ∧
          t.m_ui.testResultEdit = report) ∧
    (∀ chunks2 : List QString, chunks2.flatten = chunks.flatten →
      chunks2.foldl processSshOutput s = chunks.foldl processSshOutput s ∧
      handleSshFinished cc (chunks2.foldl processSshOutput s) =
        handleSshFinished cc (chunks.foldl processSshOutput s)) := by
  have hb : (chunks.foldl processSshOutput s).m_deviceTestOutput = chunks.flatten := by
    rw [processSshOutput_foldl]
    simp [hbuf]
  have hsame : ∀ chunks2 : List QString, chunks2.flatten = chunks.flatten →
      chunks2.foldl processSshOutput s = chunks.foldl processSshOutput s := by
    intro chunks2 h2
    rw [processSshOutput_foldl, processSshOutput_foldl, h2]
  refine ⟨hb, ?_, fun chunks2 h2 => ⟨hsame chunks2 h2, by rw [hsame chunks2 h2]⟩⟩
  obtain ⟨report, hrep⟩ := parseTestOutput_isSome cc chunks.flatten
  have hfin : finishedOutput cc (chunks.foldl processSshOutput s) r = some report := by
    unfold finishedOutput
    rw [hne, hb]
    simpa using hrep
  refine ⟨report, hrep, hfin, ?_⟩
  intro c hc
  have htest : (chunks.foldl processSshOutput s).m_deviceTester = some r := by
    rw [processSshOutput_foldl]
    exact ht
  unfold handleSshFinished
  rw [htest]
  simp only [hfin]
  rw [stopConfigTest_some _ r rfl, hc]
  exact ⟨_, rfl, rfl⟩

/-- Witness of C6: `Linux ` and `5.4.0 x86_64` delivered in two chunks. -/
theorem chunk_boundary_independence_witness :
    (["Linux ".toList, "5.4.0 x86_64".toList].foldl processSshOutput
        (testingWidget connectedRunner)).m_deviceTestOutput
      = ["Linux ".toList, "5.4.0 x86_64".toList].flatten ∧
    (∃ report, parseTestOutput asciiClasses ["Linux ".toList, "5.4.0 x86_64".toList].flatten
        = some report ∧
      finishedOutput asciiClasses (["Linux ".toList, "5.4.0 x86_64".toList].foldl
        processSshOutput (testingWidget connectedRunner)) connectedRunner = some report ∧
      ∀ c, connectedRunner.m_connection = some c →
        ∃ t, handleSshFinished asciiClasses (["Linux ".toList, "5.4.0 x86_64".toList].foldl
            processSshOutput (testingWidget connectedRunner)) = .ok t ∧
          t.m_ui.testResultEdit = report) ∧
    (∀ chunks2 : List QString,
      chunks2.flatten = ["Linux ".toList, "5.4.0 x86_64".toList].flatten →
      chunks2.foldl processSshOutput (testingWidget connectedRunner) =
        ["Linux ".toList, "5.4.0 x86_64".toList].foldl processSshOutput
          (testingWidget connectedRunner) ∧
      handleSshFinished asciiClasses
          (chunks2.foldl processSshOutput (testingWidget connectedRunner)) =
        handleSshFinished asciiClasses (["Linux ".toList, "5.4.0 x86_64".toList].foldl
          processSshOutput (testingWidget connectedRunner))) :=
  chunk_boundary_independence asciiClasses (testingWidget connectedRunner) connectedRunner
    ["Linux ".toList, "5.4.0 x86_64".toList] rfl rfl rfl

/-- C7, at the failing input: the runner whose `create` has thrown holds an
error and no connection, and the state is reachable.  `handleSshFinished`
computes the text of the transport error, whatever the buffer holds, but the
call of `stop()` in `stopConfigTest` then goes through the null connection:
the slot does not return a state in which the tester is gone and the buffer is
empty. -/
theorem handleSshFinished_after_failed_create :
    Reachable asciiClasses (testingWidget failedRunner) ∧
    (testingWidget failedRunner).m_deviceTester = some failedRunner ∧
    failedRunner.hasError = true ∧ failedRunner.m_connection = none ∧
    (∀ data : QString,
      finishedOutput asciiClasses (processSshOutput (testingWidget failedRunner) data)
        failedRunner =
      some "Device configuration test failed:\nCould not connect to host.".toList) ∧
    handleSshFinished asciiClasses (testingWidget failedRunner) = .error .nullConnection := by
  refine ⟨reachable_failedWidget asciiClasses, rfl, rfl, rfl, fun data => rfl, rfl⟩

/-- C8: with no active tester `stopConfigTest` returns the state it was given;
a second call after a call that returned changes nothing and returns; and two
calls in a row give what one call gives. -/
theorem stopConfigTest_idempotent :
    (∀ s : MaemoSettingsWidget, s.m_deviceTester = none → stopConfigTest s = .ok s) ∧
    (∀ s t : MaemoSettingsWidget, stopConfigTest s = .ok t → stopConfigTest t = .ok t) ∧
    (∀ s : MaemoSettingsWidget, (stopConfigTest s >>= stopConfigTest) = stopConfigTest s) := by
  have h2 : ∀ s t : MaemoSettingsWidget, stopConfigTest s = .ok t → stopConfigTest t = .ok t :=
    fun s t h => stopConfigTest_none t (stopConfigTest_ok s t h).1
  refine ⟨stopConfigTest_none, h2, ?_⟩
  intro s
  cases h : stopConfigTest s with
  | error f => rfl
  | ok t =>
    show stopConfigTest t = .ok t
    exact h2 s t h

/-- Witness of C8: stopping the running sample test twice. -/
theorem stopConfigTest_idempotent_witness :
    ∃ t, stopConfigTest (testingWidget connectedRunner) = .ok t ∧ stopConfigTest t = .ok t ∧
      t.m_deviceTester = none :=
  ⟨_, rfl, stopConfigTest_idempotent.2.1 (testingWidget connectedRunner) _ rfl, rfl⟩

/-- C10: while a tester is active `testConfig` returns the state it was given
(the tester, the buffer and the result text are as before and no runner is
created); and in every reachable state at most one runner is alive, namely the
active tester. -/
theorem testConfig_noop_when_active :
    (∀ (s : MaemoSettingsWidget) (r : MaemoSshRunner), s.m_deviceTester = some r →
      testConfig s = .ok s) ∧
    (∀ (cc : CharClasses) (s : MaemoSettingsWidget), Reachable cc s →
      s.liveRunners ≤ 1 ∧ (s.liveRunners = 1 ↔ s.m_deviceTester ≠ none)) := by
  constructor
  · intro s r h
    unfold testConfig
    rw [h]
  · intro cc s h
    have := liveRunners_eq cc s h
    by_cases ht : s.m_deviceTester = none
    · rw [if_pos ht] at this
      simp [this, ht]
    · rw [if_neg ht] at this
      simp [this, ht]

/-- Witness of C10: a second click on the test button of the running sample
test. -/
theorem testConfig_noop_when_active_witness :
    testConfig (testingWidget connectedRunner) = .ok (testingWidget connectedRunner) ∧
    (testingWidget connectedRunner).liveRunners ≤ 1 :=
  ⟨testConfig_noop_when_active.1 (testingWidget connectedRunner) connectedRunner rfl,
    (testConfig_noop_when_active.2 asciiClasses (testingWidget connectedRunner)
      (reachable_connectedWidget asciiClasses)).1⟩

/-! ## Decimal numbers -/

theorem digitValue_digitChar (k : Nat) (h : k < 10) : digitValue (Nat.digitChar k) = some k := by
  interval_cases k <;> rfl

theorem decimalValue_toDigitsCore :
    ∀ (fuel n : Nat) (ds : QString), n < fuel →
      decimalValue (Nat.toDigitsCore 10 fuel n ds) 0 = decimalValue ds n
  | 0, n, ds, h => by omega
  | fuel + 1, n, ds, h => by
    have hd : digitValue (Nat.digitChar (n % 10)) = some (n % 10) :=
      digitValue_digitChar (n % 10) (Nat.mod_lt _ (by decide))
    unfold Nat.toDigitsCore
    simp only
    split
    · next h0 =>
      have hn : n % 10 = n := by omega
      simp only [decimalValue, hd, Nat.zero_mul, Nat.zero_add]
      rw [hn]
    · next h0 =>
      rw [decimalValue_toDigitsCore fuel (n / 10) _ (by omega)]
      simp only [decimalValue, hd]
      congr 1
      omega

theorem number_natCast (n : Nat) : number (n : Int) = Nat.toDigits 10 n := rfl

theorem decimalValue_number (n : Nat) : decimalValue (number (n : Int)) 0 = some n := by
  rw [number_natCast]
  unfold Nat.toDigits
  rw [decimalValue_toDigitsCore (n + 1) n [] (Nat.lt_succ_self n)]
  rfl

theorem number_natCast_injective (a b : Nat) (h : number (a : Int) = number (b : Int)) :
    a = b := by
  have ha := decimalValue_number a
  rw [h, decimalValue_number b] at ha
  exact (Option.some.inj ha).symm

theorem number_ne_nil (n : Nat) : number (n : Int) ≠ [] := by
  intro h
  have := decimalValue_number n
  rw [h] at this
  -- the empty string denotes the accumulator
  simp only [decimalValue, Option.some.injEq] at this
  subst this
  revert h
  decide

theorem newConfigName_injective (a b : Nat) (h : newConfigName a = newConfigName b) : a = b := by
  unfold newConfigName at h
  exact number_natCast_injective a b (List.append_cancel_left h)

theorem newConfigName_ne_nil (n : Nat) : newConfigName n ≠ [] := by
  simp [newConfigName]

/-! ## The loop of `addConfig` -/

theorem configNameExists_iff (devConfs : List MaemoDeviceConfig) (name : QString) :
    configNameExists devConfs name = true ↔ name ∈ devConfs.map (fun d => d.name) := by
  unfold configNameExists DevConfNameMatcher
  rw [List.find?_isSome]
  simp only [beq_iff_eq, List.mem_map]

theorem newConfigLoop_eq (devConfs : List MaemoDeviceConfig) :
    ∀ (fuel suffix n : Nat), suffix ≤ n → n < suffix + fuel →
      configNameExists devConfs (newConfigName n) = false →
      (∀ k, suffix ≤ k → k < n → configNameExists devConfs (newConfigName k) = true) →
      newConfigLoop devConfs fuel suffix = some (newConfigName n)
  | 0, suffix, n, h1, h2, _, _ => by omega
  | fuel + 1, suffix, n, h1, h2, hn, hlt => by
    unfold newConfigLoop
    simp only
    by_cases hs : suffix = n
    · subst hs
      simp [hn]
    · have := hlt suffix (Nat.le_refl _) (by omega)
      simp only [this, Bool.not_true, Bool.false_eq_true, if_false]
      exact newConfigLoop_eq devConfs fuel (suffix + 1) n (by omega) (by omega) hn
        (fun k hk1 hk2 => hlt k (by omega) hk2)

/-- Among the first `length + 1` names one is free. -/
theorem exists_free_name (devConfs : List MaemoDeviceConfig) :
    ∃ n, 1 ≤ n ∧ n ≤ devConfs.length + 1 ∧
      configNameExists devConfs (newConfigName n) = false := by
  by_contra hcon
  push_neg at hcon
  have hall : ∀ n, 1 ≤ n → n ≤ devConfs.length + 1 →
      newConfigName n ∈ devConfs.map (fun d => d.name) := by
    intro n h1 h2
    rw [← configNameExists_iff]
    simpa using hcon n h1 h2
  have hnodup : ((List.range (devConfs.length + 1)).map (fun k => newConfigName (k + 1))).Nodup := by
    apply List.Nodup.map _ (List.nodup_range _)
    intro a b hab
    have := newConfigName_injective _ _ hab
    omega
  have hsub : (List.range (devConfs.length + 1)).map (fun k => newConfigName (k + 1)) ⊆
      devConfs.map (fun d => d.name) := by
    intro x hx
    simp only [List.mem_map, List.mem_range] at hx
    obtain ⟨k, hk, rfl⟩ := hx
    exact hall (k + 1) (by omega) (by omega)
  have := (hnodup.subperm hsub).length_le
  simp at this

/-- The loop of `addConfig` ends within `length + 1` rounds, with the name for
the least number from 1 on that no configuration has. -/
theorem newConfigLoop_least (devConfs : List MaemoDeviceConfig) :
    ∃ n, 1 ≤ n ∧ n ≤ devConfs.length + 1 ∧
      newConfigLoop devConfs (devConfs.length + 1) 1 = some (newConfigName n) ∧
      configNameExists devConfs (newConfigName n) = false ∧
      ∀ k, 1 ≤ k → k < n → configNameExists devConfs (newConfigName k) = true := by
  classical
  have hex : ∃ n, 1 ≤ n ∧ configNameExists devConfs (newConfigName n) = false := by
    obtain ⟨n, h1, -, h3⟩ := exists_free_name devConfs
    exact ⟨n, h1, h3⟩
  obtain ⟨m, hm1, hm2, hm3⟩ := exists_free_name devConfs
  have hspec := Nat.find_spec hex
  have hmin : ∀ k, 1 ≤ k → k < Nat.find hex →
      configNameExists devConfs (newConfigName k) = true := by
    intro k hk1 hk2
    have := Nat.find_min hex hk2
    simp only [not_and, Bool.not_eq_false] at this
    exact this hk1
  have hle : Nat.find hex ≤ m := Nat.find_min' hex ⟨hm1, hm3⟩
  exact ⟨Nat.find hex, hspec.1, by omega,
    newConfigLoop_eq devConfs _ 1 _ hspec.1 (by omega) hspec.2 hmin, hspec.2, hmin⟩

/-! ## Editing the configurations: lemmas -/

/-- What `stopConfigTest` leaves alone. -/
theorem stopConfigTest_frame (s t : MaemoSettingsWidget) (h : stopConfigTest s = .ok t) :
    t.m_devConfs = s.m_devConfs ∧ t.m_ui.selectedRow = s.m_ui.selectedRow ∧
    t.m_ui.configListWidget = s.m_ui.configListWidget ∧
    t.m_nameValidator = s.m_nameValidator := by
  cases ht : s.m_deviceTester with
  | none =>
    rw [stopConfigTest_none s ht] at h
    cases h
    exact ⟨rfl, rfl, rfl, rfl⟩
  | some r =>
    rw [stopConfigTest_some s r ht] at h
    cases hc : r.m_connection with
    | none => simp [hc] at h
    | some c =>
      simp only [hc] at h
      cases h
      exact ⟨rfl, rfl, rfl, rfl⟩

theorem stopConfigTest_returns (s : MaemoSettingsWidget) (h : CanStop s) :
    ∃ t, stopConfigTest s = .ok t := by
  cases ht : s.m_deviceTester with
  | none => exact ⟨s, stopConfigTest_none s ht⟩
  | some r =>
    rw [stopConfigTest_some s r ht]
    cases hc : r.m_connection with
    | none => exact absurd hc (h r ht)
    | some c => exact ⟨_, rfl⟩

theorem currentConfig_ok (s : MaemoSettingsWidget) (d : MaemoDeviceConfig)
    (h : currentConfig s = .ok d) :
    ∃ row, s.m_ui.selectedRow = some row ∧ s.m_devConfs.get? row = some d := by
  unfold currentConfig at h
  split at h
  · split at h
    · cases h
    · next row hrow =>
      split at h
      · cases h
      · next d2 hd =>
        cases h
        exact ⟨row, hrow, hd⟩
  · cases h

theorem currentRow_ok (s : MaemoSettingsWidget) (row : Nat) (h : currentRow s = .ok row) :
    s.m_ui.selectedRow = some row ∧ row < s.m_devConfs.length ∧
    s.m_ui.configListWidget.length = s.m_devConfs.length := by
  unfold currentRow at h
  split at h
  · next hl =>
    split at h
    · cases h
    · next r hr =>
      split at h
      · next hlt =>
        cases h
        exact ⟨hr, hlt, hl⟩
      · cases h
  · cases h

/-- What `selectionChanged` leaves alone, and the validator it sets. -/
theorem selectionChanged_ok (s t : MaemoSettingsWidget) (h : selectionChanged s = .ok t) :
    t.m_devConfs = s.m_devConfs ∧ t.m_ui.selectedRow = s.m_ui.selectedRow ∧
    t.m_ui.configListWidget = s.m_ui.configListWidget ∧ NameValidatorInSync t := by
  unfold selectionChanged at h
  split at h
  · cases h
  · next u hu =>
    obtain ⟨h1, h2, h3, -⟩ := stopConfigTest_frame s u hu
    simp only at h
    split at h
    · next hrow =>
      cases h
      refine ⟨h1, ?_, h3, ?_⟩
      · simp only [clearDetails]
        exact h2
      · intro row d hr
        simp only [clearDetails] at hr
        rw [hrow] at hr
        cases hr
    · next row hrow =>
      split at h
      · cases h
      · next d hd =>
        cases h
        obtain ⟨row2, hr2, hd2⟩ := currentConfig_ok _ d hd
        simp only at hr2 hd2
        refine ⟨h1, ?_, h3, ?_⟩
        · simp only [display]
          exact h2
        · intro r3 d3 hr3 hd3
          simp only [display] at hr3 hd3 ⊢
          rw [hr2] at hr3
          cases hr3
          rw [hd2] at hd3
          cases hd3
          rfl

theorem selectionChanged_returns (s : MaemoSettingsWidget) (hstop : CanStop s)
    (hlen : s.m_ui.configListWidget.length = s.m_devConfs.length)
    (hrow : ∀ row, s.m_ui.selectedRow = some row → row < s.m_devConfs.length) :
    ∃ t, selectionChanged s = .ok t := by
  obtain ⟨u, hu⟩ := stopConfigTest_returns s hstop
  obtain ⟨h1, h2, h3, -⟩ := stopConfigTest_frame s u hu
  unfold selectionChanged
  rw [hu]
  simp only
  cases hsel : u.m_ui.selectedRow with
  | none => exact ⟨_, rfl⟩
  | some row =>
    simp only
    have hlt : row < s.m_devConfs.length := hrow row (by rw [← h2]; exact hsel)
    have hget : ∃ d, s.m_devConfs.get? row = some d :=
      ⟨s.m_devConfs.get ⟨row, hlt⟩, List.get?_eq_get hlt⟩
    obtain ⟨d, hd⟩ := hget
    unfold currentConfig
    simp only [h3, hlen, h1, if_true, hsel, hd]
    exact ⟨_, rfl⟩

theorem namesValid_append (l : List MaemoDeviceConfig) (d : MaemoDeviceConfig)
    (hv : NamesValid l) (hne : d.name ≠ []) (hfree : configNameExists l d.name = false) :
    NamesValid (l ++ [d]) := by
  have hnot : d.name ∉ l.map (fun d => d.name) := by
    rw [← configNameExists_iff, hfree]
    simp
  constructor
  · intro x hx
    rcases List.mem_append.1 hx with h | h
    · exact hv.1 x h
    · simp only [List.mem_singleton] at h
      rw [h]
      exact hne
  · rw [List.map_append, List.nodup_append]
    refine ⟨hv.2, by simp, ?_⟩
    intro a ha hb
    simp only [List.map_cons, List.map_nil, List.mem_singleton] at hb
    rw [hb] at ha
    exact hnot ha

theorem namesValid_eraseIdx (l : List MaemoDeviceConfig) (row : Nat) (hv : NamesValid l) :
    NamesValid (l.eraseIdx row) :=
  ⟨fun d hd => hv.1 d (List.mem_of_mem_eraseIdx hd),
    hv.2.sublist ((List.eraseIdx_sublist l row).map _)⟩

theorem modify_same {α : Type} (f : α → α) :
    ∀ (l : List α) (row : Nat), (∀ d, l.get? row = some d → f d = d) → l.modify f row = l
  | [], row, _ => by simp
  | a :: t, 0, h => by
    simp [h a (by simp)]
  | a :: t, row + 1, h => by
    simp only [List.modify_succ_cons, List.cons.injEq, true_and]
    exact modify_same f t row (fun d hd => h d (by simpa using hd))

theorem mem_names_modify (x : QString) :
    ∀ (l : List MaemoDeviceConfig) (row : Nat) (y : QString),
      y ∈ (l.modify (fun d => { d with name := x }) row).map (fun d => d.name) →
      y ∈ l.map (fun d => d.name) ∨ y = x
  | [], row, y, h => by simp at h
  | a :: t, 0, y, h => by
    simp only [List.modify_zero_cons, List.map_cons, List.mem_cons] at h ⊢
    rcases h with h | h
    · exact Or.inr h
    · exact Or.inl (Or.inr h)
  | a :: t, row + 1, y, h => by
    simp only [List.modify_succ_cons, List.map_cons, List.mem_cons] at h ⊢
    rcases h with h | h
    · exact Or.inl (Or.inl h)
    · rcases mem_names_modify x t row y h with h2 | h2
      · exact Or.inl (Or.inr h2)
      · exact Or.inr h2

theorem namesValid_modify_fresh (x : QString) (hx : x ≠ []) :
    ∀ (l : List MaemoDeviceConfig) (row : Nat), NamesValid l →
      x ∉ l.map (fun d => d.name) →
      NamesValid (l.modify (fun d => { d with name := x }) row)
  | [], row, hv, _ => by simpa using hv
  | a :: t, 0, hv, hfree => by
    obtain ⟨h1, h2⟩ := hv
    simp only [List.map_cons, List.nodup_cons, List.mem_cons, not_or] at h2 hfree
    constructor
    · intro d hd
      simp only [List.modify_zero_cons, List.mem_cons] at hd
      rcases hd with rfl | hd
      · exact hx
      · exact h1 d (List.mem_cons_of_mem _ hd)
    · simp only [List.modify_zero_cons, List.map_cons, List.nodup_cons]
      exact ⟨hfree.2, h2.2⟩
  | a :: t, row + 1, hv, hfree => by
    obtain ⟨h1, h2⟩ := hv
    simp only [List.map_cons, List.nodup_cons, List.mem_cons, not_or] at h2 hfree
    have ht : NamesValid t := ⟨fun d hd => h1 d (List.mem_cons_of_mem _ hd), h2.2⟩
    have ih := namesValid_modify_fresh x hx t row ht hfree.2
    constructor
    · intro d hd
      simp only [List.modify_succ_cons, List.mem_cons] at hd
      rcases hd with rfl | hd
      · exact h1 d (List.mem_cons_self _ _)
      · exact ih.1 d hd
    · simp only [List.modify_succ_cons, List.map_cons, List.nodup_cons]
      refine ⟨?_, ih.2⟩
      intro hmem
      rcases mem_names_modify x t row a.name hmem with h | h
      · exact h2.1 h
      · exact hfree.1 h.symm

theorem trimmed_nil (cc : CharClasses) : trimmed cc [] = [] := rfl

/-- When `NameValidator::validate` returns `Acceptable`. -/
theorem nameValidator_acceptable_iff (cc : CharClasses) (devConfs : List MaemoDeviceConfig)
    (oldName input : QString) :
    NameValidator.validate cc devConfs oldName input = .Acceptable ↔
      trimmed cc input ≠ [] ∧
        (input = oldName ∨ ∀ d ∈ devConfs, d.name ≠ input) := by
  have hex : configNameExists devConfs input = true ↔ ∃ d ∈ devConfs, d.name = input := by
    rw [configNameExists_iff]
    simp
  unfold NameValidator.validate
  by_cases ht : trimmed cc input = []
  · simp [ht]
  · by_cases hi : input = oldName
    · simp [ht, hi]
    · by_cases he : configNameExists devConfs input = true
      · have he2 := hex.1 he
        have hb : (input != oldName) = true := by simpa using hi
        have hcond : ((trimmed cc input).isEmpty ||
            (input != oldName && configNameExists devConfs input)) = true := by
          rw [hb, he]
          simp
        rw [if_pos hcond]
        constructor
        · intro h
          cases h
        · rintro ⟨-, h | h⟩
          · exact absurd h hi
          · obtain ⟨d, hd, hn⟩ := he2
            exact absurd hn (h d hd)
      · have he2 : ∀ d ∈ devConfs, d.name ≠ input := by
          intro d hd hn
          exact he (hex.2 ⟨d, hd, hn⟩)
        simp only [Bool.not_eq_true] at he
        have hemp : (trimmed cc input).isEmpty = false := by
          cases h : trimmed cc input with
          | nil => exact absurd h ht
          | cons a t => rfl
        have hcond : ¬ ((trimmed cc input).isEmpty ||
            (input != oldName && configNameExists devConfs input)) = true := by
          rw [hemp, he]
          simp
        rw [if_neg hcond]
        exact ⟨fun _ => ⟨ht, Or.inr he2⟩, fun _ => rfl⟩

theorem nameValidator_states (cc : CharClasses) (devConfs : List MaemoDeviceConfig)
    (oldName input : QString) :
    NameValidator.validate cc devConfs oldName input = .Acceptable ∨
      NameValidator.validate cc devConfs oldName input = .Intermediate := by
  unfold NameValidator.validate
  split
  · exact Or.inr rfl
  · exact Or.inl rfl

theorem addConfig_ok (defaults : MaemoDeviceConfig) (s t : MaemoSettingsWidget)
    (h : addConfig defaults s = .ok t) :
    ∃ n, 1 ≤ n ∧ n ≤ s.m_devConfs.length + 1 ∧
      configNameExists s.m_devConfs (newConfigName n) = false ∧
      (∀ k, 1 ≤ k → k < n → configNameExists s.m_devConfs (newConfigName k) = true) ∧
      t.m_devConfs = s.m_devConfs ++ [defaults.named (newConfigName n)] ∧
      t.m_ui.configListWidget = s.m_ui.configListWidget ++ [newConfigName n] ∧
      NameValidatorInSync t := by
  obtain ⟨n, h1, h2, hloop, h3, h4⟩ := newConfigLoop_least s.m_devConfs
  refine ⟨n, h1, h2, h3, h4, ?_⟩
  unfold addConfig at h
  rw [hloop] at h
  simp only at h
  split at h
  · cases h
  · next u hu =>
    cases h
    obtain ⟨g1, -, g3, g4⟩ := selectionChanged_ok _ u hu
    exact ⟨g1, g3, g4⟩

theorem addConfig_returns (defaults : MaemoDeviceConfig) (s : MaemoSettingsWidget)
    (hstop : CanStop s) (hlen : s.m_ui.configListWidget.length = s.m_devConfs.length) :
    ∃ t, addConfig defaults s = .ok t := by
  obtain ⟨n, -, -, hloop, -, -⟩ := newConfigLoop_least s.m_devConfs
  unfold addConfig
  rw [hloop]
  simp only
  have hret := selectionChanged_returns
    { s with
      m_devConfs := s.m_devConfs ++ [defaults.named (newConfigName n)]
      m_ui := { s.m_ui with
        configListWidget := s.m_ui.configListWidget ++ [newConfigName n]
        selectedRow := some ((s.m_ui.configListWidget ++ [newConfigName n]).length - 1) } }
    hstop (by simp [hlen])
    (by
      intro row hrow
      simp only [Option.some.injEq] at hrow
      subst hrow
      simp [hlen])
  obtain ⟨u, hu⟩ := hret
  rw [hu]
  exact ⟨_, rfl⟩

theorem deleteConfig_ok (s t : MaemoSettingsWidget) (rowAfter : Option Nat)
    (h : deleteConfig s rowAfter = .ok t) :
    (s.m_ui.selectedRow = none ∧ t = s) ∨
    (∃ row, s.m_ui.selectedRow = some row ∧ t.m_devConfs = s.m_devConfs.eraseIdx row ∧
      t.m_ui.configListWidget = s.m_ui.configListWidget.eraseIdx row ∧
      NameValidatorInSync t) := by
  unfold deleteConfig at h
  split at h
  · next hsel =>
    cases h
    exact Or.inl ⟨hsel, rfl⟩
  · next row hsel =>
    simp only at h
    split at h
    · obtain ⟨g1, -, g3, g4⟩ := selectionChanged_ok _ t h
      exact Or.inr ⟨row, hsel, g1, g3, g4⟩
    · cases h

theorem configNameEditingFinished_ok (s t : MaemoSettingsWidget)
    (h : configNameEditingFinished s = .ok t) :
    ∃ row, s.m_ui.selectedRow = some row ∧ row < s.m_devConfs.length ∧
      t.m_devConfs =
        s.m_devConfs.modify (fun d => { d with name := s.m_ui.nameLineEdit }) row ∧
      t.m_nameValidator = s.m_ui.nameLineEdit ∧ t.m_ui.selectedRow = some row := by
  unfold configNameEditingFinished at h
  simp only at h
  split at h
  · cases h
  · next row hrow =>
    cases h
    obtain ⟨g1, g2, -⟩ := currentRow_ok s row hrow
    exact ⟨row, g1, g2, rfl, rfl, g1⟩

theorem configNameEditingFinished_returns (s : MaemoSettingsWidget) (row : Nat)
    (hsel : s.m_ui.selectedRow = some row) (hrow : row < s.m_devConfs.length)
    (hlen : s.m_ui.configListWidget.length = s.m_devConfs.length) :
    ∃ t, configNameEditingFinished s = .ok t := by
  unfold configNameEditingFinished currentRow
  simp only [hlen, if_true, hsel, hrow]
  exact ⟨_, rfl⟩

/-- A rename the validator accepts keeps the names valid and the validator in
step with the selected configuration. -/
theorem rename_keeps_names (cc : CharClasses) (s t : MaemoSettingsWidget)
    (hv : NamesValid s.m_devConfs) (hsync : NameValidatorInSync s)
    (hacc : NameValidator.validate cc s.m_devConfs s.m_nameValidator s.m_ui.nameLineEdit =
      .Acceptable)
    (h : configNameEditingFinished s = .ok t) :
    NamesValid t.m_devConfs ∧ NameValidatorInSync t := by
  obtain ⟨row, hsel, hlt, hdev, hval, hsel2⟩ := configNameEditingFinished_ok s t h
  obtain ⟨htrim, hcase⟩ := (nameValidator_acceptable_iff cc _ _ _).1 hacc
  have hne : s.m_ui.nameLineEdit ≠ [] := by
    intro h0
    rw [h0] at htrim
    exact htrim (trimmed_nil cc)
  constructor
  · rw [hdev]
    rcases hcase with hsame | hfresh
    · rw [modify_same _ s.m_devConfs row]
      · exact hv
      · intro d hd
        have := hsync row d hsel hd
        rw [← hsame] at this
        cases d
        simp only at this
        subst this
        rfl
    · apply namesValid_modify_fresh _ hne _ _ hv
      intro hmem
      simp only [List.mem_map] at hmem
      obtain ⟨d, hd, hn⟩ := hmem
      exact hfresh d hd hn
  · intro r d hr hd
    rw [hsel2] at hr
    cases hr
    rw [hval]
    rw [hdev] at hd
    have hget : (s.m_devConfs.modify (fun d => { d with name := s.m_ui.nameLineEdit }) row)[row]?
        = some d := by
      rw [← List.get?_eq_getElem?]
      exact hd
    rw [List.getElem?_modify_eq] at hget
    cases hx : s.m_devConfs[row]? with
    | none => simp [hx] at hget
    | some d0 =>
      rw [hx] at hget
      cases hget
      rfl

/-! ## The validators: lemmas -/

theorem toLongLong_of_decimalValue (s : QString) (v : Nat) (hs : s ≠ [])
    (h : decimalValue s 0 = some v) : toLongLong s = some (v : Int) ∧ s.head? ≠ some '-' ∧
      s.head? ≠ some '+' := by
  cases s with
  | nil => exact absurd rfl hs
  | cons c t =>
    have hd : ∃ d, digitValue c = some d := by
      cases hc : digitValue c with
      | none => simp [decimalValue, hc] at h
      | some d => exact ⟨d, rfl⟩
    obtain ⟨d, hd⟩ := hd
    have hminus : c ≠ '-' := by
      intro hc
      subst hc
      have : digitValue '-' = none := by decide
      rw [this] at hd
      cases hd
    have hplus : c ≠ '+' := by
      intro hc
      subst hc
      have : digitValue '+' = none := by decide
      rw [this] at hd
      cases hd
    refine ⟨?_, by simpa using hminus, by simpa using hplus⟩
    unfold toLongLong
    split
    · next heq => cases heq
    · next heq =>
      simp only [List.cons.injEq] at heq
      exact absurd heq.1 hminus
    · next heq =>
      simp only [List.cons.injEq] at heq
      exact absurd heq.1 hplus
    · next c2 t2 _ _ heq =>
      cases heq
      rw [h]
      rfl

theorem toLongLong_number (n : Nat) :
    toLongLong (number (n : Int)) = some (n : Int) ∧ (number (n : Int)).head? ≠ some '-' ∧
      (number (n : Int)).head? ≠ some '+' :=
  toLongLong_of_decimalValue _ n (number_ne_nil n) (decimalValue_number n)

theorem intValidator_number (n : Nat) (h : (n : Int) ≤ SHRT_MAX) :
    PortAndTimeoutValidator.validate (number (n : Int)) = .Acceptable := by
  obtain ⟨h1, h2, h3⟩ := toLongLong_number n
  have hne := number_ne_nil n
  have hsign : ¬ (number (n : Int) = ['+'] ∨ number (n : Int) = ['-']) := by
    rintro (h | h)
    · rw [h] at h3
      exact h3 rfl
    · rw [h] at h2
      exact h2 rfl
  unfold PortAndTimeoutValidator.validate QIntValidator.validate
  rw [if_neg hne, if_neg (by simp [h2]), if_neg (by simp [SHRT_MAX]), if_neg hsign, h1]
  simp only
  rw [if_pos ⟨Int.ofNat_nonneg n, h⟩]

/-- What `QIntValidator(0, SHRT_MAX)` accepts: the inputs without a minus sign
that denote an integer from 0 to 32767. -/
theorem intValidator_acceptable_iff (input : QString) :
    PortAndTimeoutValidator.validate input = .Acceptable ↔
      input.head? ≠ some '-' ∧ ∃ v : Int, toLongLong input = some v ∧ 0 ≤ v ∧ v ≤ 32767 := by
  unfold PortAndTimeoutValidator.validate QIntValidator.validate SHRT_MAX
  by_cases h0 : input = []
  · subst h0
    simp [toLongLong]
  rw [if_neg h0]
  by_cases h1 : input.head? = some '-'
  · rw [if_pos ⟨le_refl _, h1⟩]
    simp [h1]
  rw [if_neg (by simp [h1]), if_neg (by simp)]
  by_cases h2 : input = ['+'] ∨ input = ['-']
  · rw [if_pos h2]
    rcases h2 with h2 | h2
    · subst h2
      simp [toLongLong]
    · subst h2
      simp [toLongLong]
  rw [if_neg h2]
  cases hv : toLongLong input with
  | none => simp
  | some v =>
    simp only [Option.some.injEq, exists_eq_left']
    by_cases hr : 0 ≤ v ∧ v ≤ 32767
    · rw [if_pos hr]
      simp [h1, hr]
    · rw [if_neg hr]
      constructor
      · intro h
        split at h
        · split at h <;> cases h
        · split at h <;> cases h
      · rintro ⟨-, h⟩
        exact absurd h hr

/-- After `portEditingFinished` on an accepted text the port validator holds a
value between 0 and 32767. -/
theorem portEditingFinished_stores_valid (s t : MaemoSettingsWidget)
    (hacc : PortAndTimeoutValidator.validate s.m_ui.portLineEdit = .Acceptable)
    (h : portEditingFinished s = .ok t) :
    0 ≤ t.m_portValidator ∧ t.m_portValidator ≤ 32767 := by
  obtain ⟨-, v, hv, h0, h1⟩ := (intValidator_acceptable_iff _).1 hacc
  have hset : setPortOrTimeout s.m_ui.portLineEdit = .ok v := by
    unfold setPortOrTimeout toInt
    rw [hv]
    simp only
    rw [if_pos ⟨by omega, by omega⟩]
  unfold portEditingFinished at h
  split at h
  · cases h
  · rw [hset] at h
    cases h
    exact ⟨h0, h1⟩

/-! ## The configurations and the validators: claims -/

/-- C11: `NameValidator::validate` returns `Acceptable` exactly when the
trimmed input is not empty and the input is the old name or the name of no
configuration, and `Intermediate` otherwise.  If the names of the configurations are non-empty and pairwise
distinct, they still are after `addConfig`, after `deleteConfig`, and after
`configNameEditingFinished` with a name the validator accepts, the old name of
the validator being the name of the selected configuration; and each of the
three leaves the validator with the name of the selected configuration. -/
theorem device_config_names_stay_valid (cc : CharClasses) (defaults : MaemoDeviceConfig) :
    (∀ (devConfs : List MaemoDeviceConfig) (oldName input : QString),
      NameValidator.validate cc devConfs oldName input = .Acceptable ↔
        trimmed cc input ≠ [] ∧ (input = oldName ∨ ∀ d ∈ devConfs, d.name ≠ input)) ∧
    (∀ (devConfs : List MaemoDeviceConfig) (oldName input : QString),
      NameValidator.validate cc devConfs oldName input = .Acceptable ∨
        NameValidator.validate cc devConfs oldName input = .Intermediate) ∧
    (∀ s t : MaemoSettingsWidget, NamesValid s.m_devConfs → addConfig defaults s = .ok t →
      NamesValid t.m_devConfs ∧ NameValidatorInSync t) ∧
    (∀ (s t : MaemoSettingsWidget) (rowAfter : Option Nat), NamesValid s.m_devConfs →
      deleteConfig s rowAfter = .ok t →
      NamesValid t.m_devConfs ∧ (NameValidatorInSync s → NameValidatorInSync t)) ∧
    (∀ s t : MaemoSettingsWidget, NamesValid s.m_devConfs → NameValidatorInSync s →
      NameValidator.validate cc s.m_devConfs s.m_nameValidator s.m_ui.nameLineEdit =
        .Acceptable →
      configNameEditingFinished s = .ok t →
      NamesValid t.m_devConfs ∧ NameValidatorInSync t) := by
  refine ⟨nameValidator_acceptable_iff cc, nameValidator_states cc, ?_, ?_,
    rename_keeps_names cc⟩
  · intro s t hv h
    obtain ⟨n, -, -, hfree, -, hdev, -, hsync⟩ := addConfig_ok defaults s t h
    refine ⟨?_, hsync⟩
    rw [hdev]
    exact namesValid_append _ _ hv (newConfigName_ne_nil n) hfree
  · intro s t rowAfter hv h
    rcases deleteConfig_ok s t rowAfter h with ⟨-, rfl⟩ | ⟨row, -, hdev, -, hsync⟩
    · exact ⟨hv, fun hs => hs⟩
    · refine ⟨?_, fun _ => hsync⟩
      rw [hdev]
      exact namesValid_eraseIdx _ row hv

/-- Witness of C11: renaming the sample configuration to `Phone`, which the
validator accepts, and adding a configuration to the sample widget. -/
theorem device_config_names_stay_valid_witness :
    (∃ t, configNameEditingFinished renamingWidget = .ok t ∧
      t.m_devConfs.map (fun d => d.name) = ["Phone".toList] ∧
      NamesValid t.m_devConfs ∧ NameValidatorInSync t) ∧
    (∃ t, addConfig sampleConfig selectedWidget = .ok t ∧
      t.m_devConfs.map (fun d => d.name) =
        ["N900".toList, "New Device Configuration 1".toList] ∧
      NamesValid t.m_devConfs ∧ NameValidatorInSync t) :=
  ⟨⟨_, rfl, rfl,
      (device_config_names_stay_valid asciiClasses sampleConfig).2.2.2.2 renamingWidget _
        ⟨by decide, by decide⟩
        (fun row d h1 h2 => by cases h1; cases h2; rfl)
        (by decide) rfl⟩,
    ⟨_, rfl, rfl,
      (device_config_names_stay_valid asciiClasses sampleConfig).2.2.1 selectedWidget _
        ⟨by decide, by decide⟩ rfl⟩⟩

/-- C12: `fixup` leaves an input the validator accepts as it is and replaces
any other by the stored value, the old name for `NameValidator` and the decimal
rendering of the old value for `PortAndTimeoutValidator`, which accepts the
inputs without a minus sign that denote an integer from 0 to 32767.  When the
stored name is not blank, or the stored value lies between 0 and 32767, the
validator accepts the result of `fixup`; and `setPortOrTimeout` stores from an
accepted text a value between 0 and 32767. -/
theorem fixup_reverts_invalid_input (cc : CharClasses) :
    (∀ (devConfs : List MaemoDeviceConfig) (oldName input : QString),
      NameValidator.fixup cc devConfs oldName input =
        if NameValidator.validate cc devConfs oldName input = .Acceptable then input
        else oldName) ∧
    (∀ (oldValue : Int) (input : QString),
      PortAndTimeoutValidator.fixup oldValue input =
        if PortAndTimeoutValidator.validate input = .Acceptable then input
        else number oldValue) ∧
    (∀ input : QString,
      PortAndTimeoutValidator.validate input = .Acceptable ↔
        input.head? ≠ some '-' ∧ ∃ v : Int, toLongLong input = some v ∧ 0 ≤ v ∧ v ≤ 32767) ∧
    (∀ (devConfs : List MaemoDeviceConfig) (oldName input : QString),
      trimmed cc oldName ≠ [] →
      NameValidator.validate cc devConfs oldName
        (NameValidator.fixup cc devConfs oldName input) = .Acceptable) ∧
    (∀ (oldValue : Int) (input : QString), 0 ≤ oldValue → oldValue ≤ 32767 →
      PortAndTimeoutValidator.validate (PortAndTimeoutValidator.fixup oldValue input) =
        .Acceptable) ∧
    (∀ text : QString, PortAndTimeoutValidator.validate text = .Acceptable →
      ∃ v : Int, setPortOrTimeout text = .ok v ∧ 0 ≤ v ∧ v ≤ 32767) := by
  refine ⟨?_, ?_, intValidator_acceptable_iff, ?_, ?_, ?_⟩
  · intro devConfs oldName input
    unfold NameValidator.fixup
    by_cases h : NameValidator.validate cc devConfs oldName input = .Acceptable
    · simp [h]
    · simp [h]
  · intro oldValue input
    unfold PortAndTimeoutValidator.fixup
    by_cases h : PortAndTimeoutValidator.validate input = .Acceptable
    · simp [h]
    · simp [h]
  · intro devConfs oldName input hold
    unfold NameValidator.fixup
    by_cases h : NameValidator.validate cc devConfs oldName input = .Acceptable
    · rw [if_neg (by simp [h])]
      exact h
    · rw [if_pos h]
      exact (nameValidator_acceptable_iff cc devConfs oldName oldName).2 ⟨hold, Or.inl rfl⟩
  · intro oldValue input h0 h1
    unfold PortAndTimeoutValidator.fixup
    by_cases h : PortAndTimeoutValidator.validate input = .Acceptable
    · rw [if_neg (by simp [h])]
      exact h
    · rw [if_pos h]
      obtain ⟨n, rfl⟩ := Int.eq_ofNat_of_zero_le h0
      exact intValidator_number n h1
  · intro text h
    obtain ⟨-, v, hv, h0, h1⟩ := (intValidator_acceptable_iff text).1 h
    refine ⟨v, ?_, h0, h1⟩
    unfold setPortOrTimeout toInt
    rw [hv]
    simp only
    rw [if_pos ⟨by omega, by omega⟩]

/-- Witness of C12: the port `99999` is replaced by the stored port 22, the
blank name by the stored name, and both results are accepted. -/
theorem fixup_reverts_invalid_input_witness :
    PortAndTimeoutValidator.fixup 22 "99999".toList = "22".toList ∧
    PortAndTimeoutValidator.validate (PortAndTimeoutValidator.fixup 22 "99999".toList) =
      .Acceptable ∧
    NameValidator.fixup asciiClasses [sampleConfig] "N900".toList "  ".toList = "N900".toList ∧
    NameValidator.validate asciiClasses [sampleConfig] "N900".toList
      (NameValidator.fixup asciiClasses [sampleConfig] "N900".toList "  ".toList) =
        .Acceptable :=
  ⟨by decide,
    (fixup_reverts_invalid_input asciiClasses).2.2.2.2.1 22 "99999".toList (by decide)
      (by decide),
    by decide,
    (fixup_reverts_invalid_input asciiClasses).2.2.2.1 [sampleConfig] "N900".toList
      "  ".toList (by decide)⟩

/-- C13, at the failing inputs: the user selects the sample configuration and
starts the test, and `create` throws in `run()`, so that the runner holds the
error and a null connection; `MaemoSshThread::stop()`, called by
`stopConfigTest`, then goes through the null connection, from
`handleSshFinished` as well.  The same happens when the selection changes
while the runner has not created its connection yet.  So the tester of a
reachable state need not have a connection. -/
theorem stop_reaches_null_connection :
    selectionChanged
        { sampleWidget with m_ui := { sampleWidget.m_ui with selectedRow := some 0 } } =
      .ok selectedWidget ∧
    testConfig selectedWidget = .ok (testingWidget sampleRunner) ∧
    sampleRunner.run (.createThrows "Could not connect to host.".toList) = failedRunner ∧
    failedRunner.m_connection = none ∧
    Reachable asciiClasses (testingWidget failedRunner) ∧
    MaemoSshThread.stop failedRunner = .error .nullConnection ∧
    stopConfigTest (testingWidget failedRunner) = .error .nullConnection ∧
    handleSshFinished asciiClasses (testingWidget failedRunner) = .error .nullConnection ∧
    Reachable asciiClasses (testingWidget sampleRunner) ∧
    selectionChanged
        { testingWidget sampleRunner with
          m_ui := { (testingWidget sampleRunner).m_ui with selectedRow := none } } =
      .error .nullConnection ∧
    ¬ (∀ (s : MaemoSettingsWidget) (r : MaemoSshRunner), Reachable asciiClasses s →
        s.m_deviceTester = some r → r.m_connection ≠ none) := by
  refine ⟨rfl, rfl, rfl, rfl, reachable_failedWidget asciiClasses, rfl, rfl, rfl,
    reachable_testingWidget asciiClasses, rfl, ?_⟩
  intro h
  exact h (testingWidget failedRunner) failedRunner (reachable_failedWidget asciiClasses) rfl rfl

/-- What holds of `addConfig` for every list of configurations: its loop ends
within `length + 1` rounds, with the name `New Device Configuration n` for the
least `n` from 1 on that no configuration has as its name, and `n` is at most
the length plus one.  When `addConfig` returns, the list is the old list
followed by one configuration of that name; and it returns whenever the tester,
if any, can be stopped and the list widget has as many rows as there are
configurations. -/
theorem addConfig_appends_fresh_config (defaults : MaemoDeviceConfig) :
    (∀ devConfs : List MaemoDeviceConfig, ∃ n, 1 ≤ n ∧ n ≤ devConfs.length + 1 ∧
      newConfigLoop devConfs (devConfs.length + 1) 1 =
        some ("New Device Configuration ".toList ++ number (n : Int)) ∧
      (∀ d ∈ devConfs, d.name ≠ "New Device Configuration ".toList ++ number (n : Int)) ∧
      ∀ k, 1 ≤ k → k < n →
        ∃ d ∈ devConfs, d.name = "New Device Configuration ".toList ++ number (k : Int)) ∧
    (∀ s t : MaemoSettingsWidget, addConfig defaults s = .ok t →
      ∃ n, 1 ≤ n ∧ n ≤ s.m_devConfs.length + 1 ∧
        (∀ d ∈ s.m_devConfs,
          d.name ≠ "New Device Configuration ".toList ++ number (n : Int)) ∧
        (∀ k, 1 ≤ k → k < n →
          ∃ d ∈ s.m_devConfs,
            d.name = "New Device Configuration ".toList ++ number (k : Int)) ∧
        t.m_devConfs = s.m_devConfs ++
          [{ defaults with name := "New Device Configuration ".toList ++ number (n : Int) }]) ∧
    (∀ s : MaemoSettingsWidget, CanStop s →
      s.m_ui.configListWidget.length = s.m_devConfs.length →
      ∃ t, addConfig defaults s = .ok t) := by
  have hfree : ∀ (l : List MaemoDeviceConfig) (n : Nat),
      configNameExists l (newConfigName n) = false →
      ∀ d ∈ l, d.name ≠ "New Device Configuration ".toList ++ number (n : Int) := by
    intro l n h d hd hn
    have : configNameExists l (newConfigName n) = true :=
      (configNameExists_iff l _).2 (List.mem_map.2 ⟨d, hd, hn⟩)
    rw [h] at this
    cases this
  have hused : ∀ (l : List MaemoDeviceConfig) (k : Nat),
      configNameExists l (newConfigName k) = true →
      ∃ d ∈ l, d.name = "New Device Configuration ".toList ++ number (k : Int) := by
    intro l k h
    have := (configNameExists_iff l _).1 h
    simpa [List.mem_map] using this
  refine ⟨?_, ?_, addConfig_returns defaults⟩
  · intro devConfs
    obtain ⟨n, h1, h2, h3, h4, h5⟩ := newConfigLoop_least devConfs
    exact ⟨n, h1, h2, h3, hfree _ n h4, fun k hk1 hk2 => hused _ k (h5 k hk1 hk2)⟩
  · intro s t h
    obtain ⟨n, h1, h2, h3, h4, h5, -⟩ := addConfig_ok defaults s t h
    exact ⟨n, h1, h2, hfree _ n h3, fun k hk1 hk2 => hused _ k (h4 k hk1 hk2), h5⟩

/-- An instance: adding a configuration to the sample widget, which has no
tester. -/
theorem addConfig_appends_fresh_config_witness :
    ∃ t, addConfig sampleConfig selectedWidget = .ok t :=
  (addConfig_appends_fresh_config sampleConfig).2.2 selectedWidget
    (fun r h => by cases h) rfl

/-- C14, at the failing input: a test has just been started on the sample
configuration and the runner has no connection yet (a reachable state).  The
loop of `addConfig` ends with the name `New Device Configuration 1` and the
configuration is appended, but `setCurrentRow` then runs `selectionChanged`,
whose `stopConfigTest` calls `stop()` through the null connection: `addConfig`
does not return.  The loop by itself picks the least free number, here 2
between the taken 1 and 3. -/
theorem addConfig_faults_with_null_connection :
    Reachable asciiClasses (testingWidget sampleRunner) ∧
    (testingWidget sampleRunner).m_devConfs = [sampleConfig] ∧
    sampleRunner.m_connection = none ∧
    newConfigLoop [sampleConfig] 2 1 = some "New Device Configuration 1".toList ∧
    selectionChanged
        { testingWidget sampleRunner with
          m_devConfs := [sampleConfig, sampleConfig.named "New Device Configuration 1".toList]
          m_ui := { (testingWidget sampleRunner).m_ui with
            configListWidget := ["N900".toList, "New Device Configuration 1".toList]
            selectedRow := some 1 } } =
      .error .nullConnection ∧
    addConfig sampleConfig (testingWidget sampleRunner) = .error .nullConnection ∧
    newConfigLoop
        [sampleConfig.named "New Device Configuration 1".toList, sampleConfig,
          sampleConfig.named "New Device Configuration 3".toList] 4 1 =
      some "New Device Configuration 2".toList := by
  refine ⟨reachable_testingWidget asciiClasses, rfl, rfl, ?_, rfl, ?_, ?_⟩
  · decide
  · rfl
  · decide

/-! ## Wired steps: lemmas -/

theorem wiredStep_step (cc : CharClasses) (s t : MaemoSettingsWidget) (h : WiredStep cc s t) :
    Step cc s t := by
  cases h with
  | testConfig _ h => exact Step.testConfig s t h
  | enableTestStop r _ _ => exact Step.enableTestStop s
  | processSshOutput r data _ _ => exact Step.processSshOutput s data
  | handleSshFinished _ r _ _ h => exact Step.handleSshFinished s t h
  | stopConfigTest _ h => exact Step.stopConfigTest s t h
  | selectionChanged _ row h => exact Step.selectionChanged s t row h
  | edit _ h1 h2 h3 h4 => exact Step.edit s t h1 h2 h3 h4
  | runConnected r c h => exact Step.runConnected s r c h
  | runFailed r e h => exact Step.runFailed s r e h

theorem wiredReachable_reachable (cc : CharClasses) (s : MaemoSettingsWidget)
    (h : WiredReachable cc s) : Reachable cc s := by
  induction h with
  | init ui devConfs p t => exact Reachable.init ui devConfs p t
  | step s t _ hstep ih => exact Reachable.step s t ih (wiredStep_step cc s t hstep)

/-- What `selectionChanged` does to the tester and the buffer is what
`stopConfigTest` does. -/
theorem selectionChanged_stop (s t : MaemoSettingsWidget) (h : selectionChanged s = .ok t) :
    ∃ u, stopConfigTest s = .ok u ∧ t.m_deviceTester = u.m_deviceTester ∧
      t.m_deviceTestOutput = u.m_deviceTestOutput := by
  unfold selectionChanged at h
  split at h
  · cases h
  · next u hu =>
    refine ⟨u, hu, ?_⟩
    simp only at h
    split at h
    · cases h
      exact ⟨rfl, rfl⟩
    · split at h
      · cases h
      · cases h
        exact ⟨rfl, rfl⟩

/-- In a state reached by wired steps the buffer is empty while no tester is
active: it is empty at the start, only an active tester delivers output, and
the buffer is cleared when the tester is deleted. -/
theorem buffer_empty_without_tester (cc : CharClasses) (s : MaemoSettingsWidget)
    (h : WiredReachable cc s) : s.m_deviceTester = none → s.m_deviceTestOutput = [] := by
  induction h with
  | init ui devConfs p t => intro _; rfl
  | step s t _ hstep ih =>
    cases hstep with
    | testConfig _ h =>
      unfold testConfig at h
      cases ht : s.m_deviceTester with
      | some r =>
        simp only [ht] at h
        cases h
        exact ih
      | none =>
        simp only [ht] at h
        split at h
        · cases h
        · cases h
          intro hn
          cases hn
    | enableTestStop r _ _ => exact ih
    | processSshOutput r data hr _ =>
      intro hn
      simp only [processSshOutput] at hn
      rw [hr] at hn
      cases hn
    | handleSshFinished _ r hr _ h =>
      intro _
      unfold handleSshFinished at h
      simp only [hr] at h
      split at h
      · cases h
      · obtain ⟨-, -, h3, -⟩ := stopConfigTest_ok _ _ h
        exact (h3 (by simp [hr])).1
    | stopConfigTest _ h =>
      intro _
      obtain ⟨-, h2, h3, -⟩ := stopConfigTest_ok _ _ h
      cases ht : s.m_deviceTester with
      | none =>
        rw [h2 ht]
        exact ih ht
      | some r => exact (h3 (by simp [ht])).1
    | selectionChanged _ row h =>
      intro _
      obtain ⟨u, hu, -, hbuf⟩ := selectionChanged_stop _ t h
      obtain ⟨-, h2, h3, -⟩ := stopConfigTest_ok _ _ hu
      rw [hbuf]
      cases ht : s.m_deviceTester with
      | none =>
        rw [h2 ht]
        exact ih ht
      | some r => exact (h3 (by simp [ht])).1
    | edit _ h1 _ h3 _ =>
      intro hn
      rw [h3]
      exact ih (by rw [← h1]; exact hn)
    | runConnected r c ht =>
      intro hn
      cases hn
    | runFailed r e ht =>
      intro hn
      cases hn

theorem wiredReachable_selectedWidget (cc : CharClasses) : WiredReachable cc selectedWidget :=
  WiredReachable.step sampleWidget selectedWidget (WiredReachable.init sampleUi [sampleConfig] 0 0)
    (WiredStep.selectionChanged sampleWidget selectedWidget (some 0) rfl)

theorem wiredReachable_connectedWidget (cc : CharClasses) :
    WiredReachable cc (testingWidget connectedRunner) :=
  WiredReachable.step _ _
    (WiredReachable.step selectedWidget (testingWidget sampleRunner)
      (wiredReachable_selectedWidget cc) (WiredStep.testConfig selectedWidget _ rfl))
    (WiredStep.runConnected (testingWidget sampleRunner) sampleRunner { stopped := false } rfl)

theorem wiredReachable_receivingWidget (cc : CharClasses) :
    WiredReachable cc (processSshOutput (testingWidget connectedRunner) "Linux ".toList) :=
  WiredReachable.step _ _ (wiredReachable_connectedWidget cc)
    (WiredStep.processSshOutput (testingWidget connectedRunner) connectedRunner
      "Linux ".toList rfl rfl)

/-- C9: in every state the widget reaches, with or without an active tester,
when `stopConfigTest` returns the output buffer `m_deviceTestOutput` is empty
and no tester is active.  With a tester the call clears the buffer; without one
the buffer is already empty, since only an active tester delivers output. -/
theorem stopConfigTest_discards_buffer (cc : CharClasses) (s t : MaemoSettingsWidget)
    (hr : WiredReachable cc s) (h : stopConfigTest s = .ok t) :
    t.m_deviceTestOutput = [] ∧ t.m_deviceTester = none := by
  obtain ⟨h1, h2, h3, -⟩ := stopConfigTest_ok s t h
  refine ⟨?_, h1⟩
  cases ht : s.m_deviceTester with
  | none =>
    rw [h2 ht]
    exact buffer_empty_without_tester cc s hr ht
  | some r => exact (h3 (by simp [ht])).1

/-- Witness of C9: stopping the sample test after a chunk has arrived, and
stopping when no test runs. -/
theorem stopConfigTest_discards_buffer_witness :
    (processSshOutput (testingWidget connectedRunner) "Linux ".toList).m_deviceTestOutput =
      "Linux ".toList ∧
    (∃ t, stopConfigTest (processSshOutput (testingWidget connectedRunner) "Linux ".toList)
        = .ok t ∧ t.m_deviceTestOutput = [] ∧ t.m_deviceTester = none) ∧
    (∃ t, stopConfigTest selectedWidget = .ok t ∧
      t.m_deviceTestOutput = [] ∧ t.m_deviceTester = none) :=
  ⟨rfl,
    ⟨_, rfl, stopConfigTest_discards_buffer asciiClasses _ _
      (wiredReachable_receivingWidget asciiClasses) rfl⟩,
    ⟨_, rfl, stopConfigTest_discards_buffer asciiClasses _ _
      (wiredReachable_selectedWidget asciiClasses) rfl⟩⟩

end MaemoSettings
